import Mathlib

/-!
XDBF container reader (`src/xenia/kernel/util/xdbf_utils.cc`)

A shallow embedding of `XdbfWrapper` and `XdbfGameData`.

* The caller-owned buffer is a list of bytes, the memory behind `data`; a null
  `data` is `none`.  `data_size` is the length the caller declares, and the
  statements about bounds take it to be the length of the list.
* A pointer into the buffer is a byte offset from the start of the buffer; a
  pointer-typed member or field is an `Option Nat`, `none` being `nullptr`.
* Every memory read is checked.  A function returns `none` exactly when the C++
  code would read a byte outside the buffer or read through a null pointer
  (undefined behaviour); `some r` means it returns `r` having read only bytes of
  the buffer.  All loops are bounded by a count read once, so every function is
  total.
* `size_t` is 64 bits wide.  `assert_true` is a debug-only assertion; the
  embedding is that of a release build, where it expands to nothing.
* `xdbf_utils.h` is not among the sources: record layouts, enumerations and
  member initialisers are modelled from the specification and marked so.
-/

set_option maxRecDepth 1000000

namespace xe.kernel.util

/-- The byte buffer behind `data`; every element is used modulo 256. -/
abbrev Bytes := List Nat

/-! ## Checked reads of host-native (little-endian) fields -/

/-- One byte at offset `p`, `none` outside the buffer. -/
def readU8 (buf : Bytes) (p : Nat) : Option Nat :=
  (buf[p]?).map (fun b => b % 256)

/-- A `uint16_t` field at offset `p`. -/
def readU16 (buf : Bytes) (p : Nat) : Option Nat := do
  let b0 ← readU8 buf p
  let b1 ← readU8 buf (p + 1)
  pure (b0 + 256 * b1)

/-- A `uint32_t` field at offset `p`. -/
def readU32 (buf : Bytes) (p : Nat) : Option Nat := do
  let lo ← readU16 buf p
  let hi ← readU16 buf (p + 2)
  pure (lo + 65536 * hi)

/-- A `uint64_t` field at offset `p`. -/
def readU64 (buf : Bytes) (p : Nat) : Option Nat := do
  let lo ← readU32 buf p
  let hi ← readU32 buf (p + 4)
  pure (lo + 4294967296 * hi)

/-- The `n` bytes starting at offset `p`, as `std::string(ptr, n)` copies them. -/
def readBytes (buf : Bytes) (p : Nat) : Nat → Option Bytes
  | 0 => some []
  | n + 1 => do
    let b ← readU8 buf p
    let rest ← readBytes buf (p + 1) n
    pure (b :: rest)

/-! ## Declarations of `xdbf_utils.h` -/

/-- Modelled from the spec: `xdbf_utils.h` is not among the sources.  The record
layouts are those of spec section 6, fields in declared order, packed.
`XbdfHeader { magic:u32, slot_count:u32, used_slot_count:u32, free_slot_count:u32 }`. -/
def sizeofXbdfHeader : Nat := 16

/-- Modelled from the spec: `DirectoryEntry { section:u16, id:u64, offset:u32, size:u32 }`
of `xdbf_utils.h`, which is not among the sources. -/
def sizeofXbdfEntry : Nat := 18

/-- Modelled from the spec: `StringTableBlock` header `{ magic:u32, version:u32, string_count:u32 }`
of `xdbf_utils.h`, which is not among the sources. -/
def sizeofXdbfXstrHeader : Nat := 12

/-- Modelled from the spec: string record prefix `{ id:u16, length:u16 }`
of `xdbf_utils.h`, which is not among the sources. -/
def sizeofXdbfStringTableEntry : Nat := 4

/-- Modelled from the spec: `AchievementsBlock` header `{ magic:u32, version:u32, count:u32 }`
of `xdbf_utils.h`, which is not among the sources. -/
def sizeofXbdfXachHeader : Nat := 12

/-- Modelled from the spec: achievement record `{ id:u32, image_id:u32, gamerscore:u32,
flags:u32, label_id:u16, description_id:u16, unachieved_id:u16 }` of `xdbf_utils.h`,
which is not among the sources. -/
def sizeofXbdfXachEntry : Nat := 22

/-- Modelled from the spec: the section enumeration of `xdbf_utils.h`, which is not
among the sources; a small closed enumeration {StringTable, Image, Metadata}. -/
inductive XdbfSection where
  | kMetadata
  | kImage
  | kStringTable
  deriving DecidableEq, Repr

/-- Modelled from the spec: the 16-bit tags of the section enumeration are not
among the sources; the three sections carry distinct tags. -/
def XdbfSection.toU16 : XdbfSection → Nat
  | .kMetadata => 1
  | .kImage => 2
  | .kStringTable => 3

/-- Modelled from the spec: the locale enumeration of `xdbf_utils.h` is not among the
sources; a locale is a 32-bit value and `kEnglish` is the fixed fallback. -/
def kEnglish : Nat := 1

/-- The pair `XdbfBlock { buffer, size }`; `buffer = none` is `nullptr`. -/
structure XdbfBlock where
  buffer : Option Nat
  size : Nat
  deriving DecidableEq, Repr

/-- The value `{0}` returned on a miss. -/
def XdbfBlock.empty : XdbfBlock := ⟨none, 0⟩

/-- Modelled from the spec: `XdbfBlock::operator bool` of `xdbf_utils.h` is not among
the sources; "null means absent", the test `default_language` also spells out. -/
def XdbfBlock.toBool (b : XdbfBlock) : Bool := b.buffer.isSome

/-- The record `XbdfAchievement` filled by `GetAchievements`. -/
structure XbdfAchievement where
  id : Nat
  image_id : Nat
  gamerscore : Nat
  flags : Nat
  label : Bytes
  description : Bytes
  unachieved_desc : Bytes
  deriving DecidableEq, Repr

/-- The members of `XdbfWrapper`.  `mem` is the memory the pointers refer to. -/
structure XdbfWrapper where
  mem : Bytes
  data_ : Option Nat
  data_size_ : Nat
  header_ : Option Nat
  entries_ : Option Nat
  files_ : Option Nat
  content_offset_ : Option Nat
  deriving DecidableEq, Repr

/-- Modelled from the spec: `is_valid` of `xdbf_utils.h` is not among the sources;
the constructor records invalidity by nulling `data_`. -/
def XdbfWrapper.is_valid (w : XdbfWrapper) : Bool := w.data_.isSome

/-! ## Constants of `xdbf_utils.cc` -/

def kXdbfMagicXdbf : Nat := 0x58444246
def kXdbfMagicXstc : Nat := 0x58535443
def kXdbfMagicXstr : Nat := 0x58535452
def kXdbfMagicXach : Nat := 0x58414348
def kXdbfIdXach : Nat := 0x58414348
def kXdbfIdTitle : Nat := 0x8000
def kXdbfIdXstc : Nat := 0x58535443

/-- Multiplication in `size_t`. -/
def mulSizeT (a b : Nat) : Nat := (a * b) % 2 ^ 64

/-! ## `XdbfWrapper::XdbfWrapper` -/

/-- Modelled from the spec: the member initialisers of `xdbf_utils.h` are not among
the sources; a member the constructor does not assign is null. -/
def XdbfWrapper.unset (mem : Bytes) (data_size : Nat) : XdbfWrapper :=
  { mem := mem, data_ := none, data_size_ := data_size, header_ := none,
    entries_ := none, files_ := none, content_offset_ := none }

/-- The constructor, lines 21-44.  `sizeofXbdfFileLoc` is the size of the free-list
record, which spec section 6 leaves opaque. -/
def XdbfWrapper.new (sizeofXbdfFileLoc : Nat) (data : Option Bytes) (data_size : Nat) :
    Option XdbfWrapper :=
  match data with
  | none => some (XdbfWrapper.unset [] data_size)
  | some buf =>
    if data_size ≤ sizeofXbdfHeader then
      some (XdbfWrapper.unset buf data_size)
    else do
      let ptr := 0
      let header := ptr
      let ptr := ptr + sizeofXbdfHeader
      let magic ← readU32 buf header
      if magic ≠ kXdbfMagicXdbf then
        some { XdbfWrapper.unset buf data_size with header_ := some header }
      else do
        let entries := ptr
        let entry_count ← readU32 buf (header + 4)
        let ptr := ptr + mulSizeT sizeofXbdfEntry entry_count
        let files := ptr
        let free_count ← readU32 buf (header + 12)
        let ptr := ptr + mulSizeT sizeofXbdfFileLoc free_count
        some { mem := buf, data_ := some 0, data_size_ := data_size,
               header_ := some header, entries_ := some entries,
               files_ := some files, content_offset_ := some ptr }

/-! ## `XdbfWrapper::GetEntry` -/

/-- The loop of lines 47-55 with `n` iterations left, at index `i`. -/
def XdbfWrapper.GetEntry.scan (w : XdbfWrapper) (sec id : Nat) : Nat → Nat → Option XdbfBlock
  | 0, _ => some XdbfBlock.empty
  | n + 1, i => do
    let entries ← w.entries_
    let entry := entries + sizeofXbdfEntry * i
    let esec ← readU16 w.mem entry
    if esec = sec then
      let eid ← readU64 w.mem (entry + 2)
      if eid = id then
        let content ← w.content_offset_
        let off ← readU32 w.mem (entry + 10)
        let sz ← readU32 w.mem (entry + 14)
        some { buffer := some (content + off), size := sz }
      else XdbfWrapper.GetEntry.scan w sec id n (i + 1)
    else XdbfWrapper.GetEntry.scan w sec id n (i + 1)

/-- `GetEntry`, lines 46-57.  `id` is a `uint64_t`. -/
def XdbfWrapper.GetEntry (w : XdbfWrapper) (sec : XdbfSection) (id : Nat) : Option XdbfBlock := do
  let header ← w.header_
  let entry_used ← readU32 w.mem (header + 8)
  XdbfWrapper.GetEntry.scan w sec.toU16 (id % 2 ^ 64) entry_used 0

/-! ## String table -/

/-- The loop of lines 62-70 with `n` iterations left, `ptr2` at the next record. -/
def GetStringTableEntry_.scan (buf : Bytes) (string_id : Nat) : Nat → Nat → Option Bytes
  | 0, _ => some []
  | n + 1, ptr2 => do
    let entry := ptr2
    let ptr2 := ptr2 + sizeofXdbfStringTableEntry
    let eid ← readU16 buf entry
    if eid = string_id then
      let string_length ← readU16 buf (entry + 2)
      readBytes buf ptr2 string_length
    else
      let string_length ← readU16 buf (entry + 2)
      GetStringTableEntry_.scan buf string_id n (ptr2 + string_length)

/-- `GetStringTableEntry_`, lines 59-72; `string_id` and `count` are `uint16_t`. -/
def GetStringTableEntry_ (buf : Bytes) (ptr : Nat) (string_id count : Nat) : Option Bytes :=
  GetStringTableEntry_.scan buf (string_id % 2 ^ 16) (count % 2 ^ 16) ptr

/-- `GetStringTableEntry`, lines 74-90.  `assert_true` is a debug-only assertion and
expands to nothing in a release build, so the magic and version are not read. -/
def XdbfWrapper.GetStringTableEntry (w : XdbfWrapper) (locale string_id : Nat) : Option Bytes := do
  let language_block ← w.GetEntry .kStringTable (locale % 2 ^ 32)
  match language_block.buffer with
  | none => some []
  | some xstr_head =>
    let ptr := xstr_head + sizeofXdbfXstrHeader
    let string_count ← readU32 w.mem (xstr_head + 8)
    GetStringTableEntry_ w.mem ptr string_id string_count

/-! ## `XdbfWrapper::GetAchievements` -/

/-- The loop of lines 121-139 with `n` iterations left, `xach_entry` at the next
record, `entries` the destination vector so far. -/
def XdbfWrapper.GetAchievements.fill (w : XdbfWrapper) (xstr_head xstr_ptr : Nat) :
    Nat → Nat → List XbdfAchievement → Option (List XbdfAchievement)
  | 0, _, entries => some entries
  | n + 1, xach_entry, entries => do
    let id ← readU32 w.mem xach_entry
    let image_id ← readU32 w.mem (xach_entry + 4)
    let gamerscore ← readU32 w.mem (xach_entry + 8)
    let flags ← readU32 w.mem (xach_entry + 12)
    let label_id ← readU16 w.mem (xach_entry + 16)
    let string_count ← readU32 w.mem (xstr_head + 8)
    let label ← GetStringTableEntry_ w.mem xstr_ptr label_id string_count
    let description_id ← readU16 w.mem (xach_entry + 18)
    let description ← GetStringTableEntry_ w.mem xstr_ptr description_id string_count
    let unachieved_id ← readU16 w.mem (xach_entry + 20)
    let unachieved_desc ← GetStringTableEntry_ w.mem xstr_ptr unachieved_id string_count
    let ach : XbdfAchievement :=
      { id := id, image_id := image_id, gamerscore := gamerscore, flags := flags,
        label := label, description := description, unachieved_desc := unachieved_desc }
    XdbfWrapper.GetAchievements.fill w xstr_head xstr_ptr n
      (xach_entry + sizeofXbdfXachEntry) (entries ++ [ach])

/-- `GetAchievements`, lines 94-143.  `entries` is the destination vector, `none`
when the caller passes a null pointer; the result is the returned count and the
vector after the call.  The four `assert_true` lines expand to nothing. -/
def XdbfWrapper.GetAchievements (w : XdbfWrapper) (locale : Nat)
    (entries : Option (List XbdfAchievement)) :
    Option (Nat × Option (List XbdfAchievement)) := do
  let xach_block ← w.GetEntry .kMetadata kXdbfIdXach
  match xach_block.buffer with
  | none => some (0, entries)
  | some xach_head =>
    let language_block ← w.GetEntry .kStringTable (locale % 2 ^ 32)
    match language_block.buffer with
    | none => some (0, entries)
    | some xstr_head =>
      let xstr_ptr := xstr_head + sizeofXdbfXstrHeader
      let count ← readU32 w.mem (xach_head + 8)
      match entries with
      | none => some (count, none)
      | some es => do
        let es ← XdbfWrapper.GetAchievements.fill w xstr_head xstr_ptr count
          (xach_head + sizeofXbdfXachHeader) es
        some (count, some es)

/-! ## `XdbfGameData` -/

/-- `icon`, lines 148-150. -/
def XdbfGameData.icon (w : XdbfWrapper) : Option XdbfBlock :=
  w.GetEntry .kImage kXdbfIdTitle

/-- `default_language`, lines 152-160; the `assert_true` expands to nothing. -/
def XdbfGameData.default_language (w : XdbfWrapper) : Option Nat := do
  let block ← w.GetEntry .kMetadata kXdbfIdXstc
  match block.buffer with
  | none => some kEnglish
  | some xstc => readU32 w.mem (xstc + 4)

/-- `title`, lines 162-164. -/
def XdbfGameData.title (w : XdbfWrapper) : Option Bytes := do
  let locale ← XdbfGameData.default_language w
  w.GetStringTableEntry locale kXdbfIdTitle

/-! ## Directory view used to state the lookup properties -/

/-- The four fields of a directory entry. -/
structure XbdfEntry where
  sect : Nat
  id : Nat
  offset : Nat
  size : Nat
  deriving DecidableEq, Repr

/-- Directory slot `i` as stored in the buffer, `none` if it is not wholly inside. -/
def XdbfWrapper.entryAt (w : XdbfWrapper) (i : Nat) : Option XbdfEntry := do
  let entries ← w.entries_
  let p := entries + sizeofXbdfEntry * i
  let s ← readU16 w.mem p
  let id ← readU64 w.mem (p + 2)
  let off ← readU32 w.mem (p + 10)
  let sz ← readU32 w.mem (p + 14)
  some { sect := s, id := id, offset := off, size := sz }

/-- The header field `entry_used` (the used-slot count). -/
def XdbfWrapper.entry_used (w : XdbfWrapper) : Option Nat := do
  let header ← w.header_
  readU32 w.mem (header + 8)

/-- Whether the entry carries the key `(section, id)`. -/
def XbdfEntry.hasKey (e : XbdfEntry) (sec : XdbfSection) (id : Nat) : Prop :=
  e.sect = sec.toU16 ∧ e.id = id

instance (e : XbdfEntry) (sec : XdbfSection) (id : Nat) : Decidable (e.hasKey sec id) := by
  unfold XbdfEntry.hasKey; infer_instance

/-! ## Serialisation used to state the properties on concrete containers -/

/-- A 16-bit value as two bytes. -/
def encU16 (v : Nat) : Bytes := [v % 256, v / 256 % 256]

/-- A 32-bit value as four bytes. -/
def encU32 (v : Nat) : Bytes := encU16 (v % 65536) ++ encU16 (v / 65536 % 65536)

/-- A 64-bit value as eight bytes. -/
def encU64 (v : Nat) : Bytes := encU32 (v % 4294967296) ++ encU32 (v / 4294967296 % 4294967296)

/-- The `XbdfHeader` bytes. -/
def encHeader (magic entry_count entry_used free_count : Nat) : Bytes :=
  encU32 magic ++ encU32 entry_count ++ encU32 entry_used ++ encU32 free_count

/-- One directory entry. -/
def encEntry (e : XbdfEntry) : Bytes :=
  encU16 e.sect ++ encU64 e.id ++ encU32 e.offset ++ encU32 e.size

/-- A string record `(id, length, text)`. -/
def encString (r : Nat × Bytes) : Bytes :=
  encU16 r.1 ++ encU16 r.2.length ++ r.2

/-- Records serialised contiguously, no padding. -/
def encStrings (rs : List (Nat × Bytes)) : Bytes :=
  (rs.map encString).flatten

/-- A string-table block header. -/
def encXstrHeader (magic version string_count : Nat) : Bytes :=
  encU32 magic ++ encU32 version ++ encU32 string_count

/-- First record in storage order carrying `id`, the empty string when none does. -/
def lookupString (rs : List (Nat × Bytes)) (id : Nat) : Bytes :=
  match rs.find? (fun r => r.1 = id) with
  | some r => r.2
  | none => []

/-! ## Concrete containers -/

/-- The spec's string table `{(1,"Hello"), (2,"World")}`. -/
def exStrings : List (Nat × Bytes) :=
  [(1, [72, 101, 108, 108, 111]), (2, [87, 111, 114, 108, 100])]

/-- A container with four directory slots of which three are used, one free-list
record of 8 bytes, and a content region holding one string table.  Slot 0 carries
the id of the key `(StringTable, 1)` only, slot 1 its section only, slot 2 both;
slot 3 is beyond the used-slot count. -/
def exDirectory : Bytes :=
  encHeader kXdbfMagicXdbf 4 3 1
    ++ encEntry ⟨2, 1, 0, 5⟩
    ++ encEntry ⟨3, 2, 5, 7⟩
    ++ encEntry ⟨3, 1, 0, 30⟩
    ++ encEntry ⟨2, 0x8000, 30, 6⟩
    ++ [0, 0, 0, 0, 0, 0, 0, 0]
    ++ encXstrHeader kXdbfMagicXstr 1 2
    ++ encStrings [(1, [72, 101, 108, 108, 111]), (2, [87, 111, 114, 108, 100])]
    ++ [1, 2, 3, 4, 5, 6]

/-- The object the constructor builds from `exDirectory` with 8-byte free-list records. -/
def exDirectoryWrapper : XdbfWrapper :=
  { mem := exDirectory, data_ := some 0, data_size_ := 132, header_ := some 0,
    entries_ := some 16, files_ := some 88, content_offset_ := some 96 }

/-- A buffer of exactly header size carrying the container magic. -/
def exHeaderOnly : Bytes := encHeader kXdbfMagicXdbf 0 0 0

/-- A 17-byte buffer with a wrong magic whose header declares one used slot. -/
def exWrongMagic : Bytes := encHeader 0 0 1 0 ++ [0]

/-- A 17-byte buffer with a wrong magic whose header declares no used slot. -/
def exWrongMagicIdle : Bytes := encHeader 0 0 0 0 ++ [0]

/-- A 17-byte buffer with the container magic whose header declares one used slot. -/
def exTruncated : Bytes := encHeader kXdbfMagicXdbf 0 1 0 ++ [0]

/-- A 34-byte buffer: header and one used entry `(Image, 0x8000)` with offset 0 and
size 100, and no content. -/
def exOversized : Bytes :=
  encHeader kXdbfMagicXdbf 1 1 0 ++ encEntry ⟨2, 0x8000, 0, 100⟩

/-- The object the constructor builds from `exWrongMagic`: only `header_` is set. -/
def exWrongMagicWrapper : XdbfWrapper :=
  { XdbfWrapper.unset exWrongMagic 17 with header_ := some 0 }

/-- The object the constructor builds from `exWrongMagicIdle`. -/
def exWrongMagicIdleWrapper : XdbfWrapper :=
  { XdbfWrapper.unset exWrongMagicIdle 17 with header_ := some 0 }

/-- The object the constructor builds from `exTruncated`. -/
def exTruncatedWrapper : XdbfWrapper :=
  { mem := exTruncated, data_ := some 0, data_size_ := 17, header_ := some 0,
    entries_ := some 16, files_ := some 16, content_offset_ := some 16 }

/-- The object the constructor builds from `exOversized`. -/
def exOversizedWrapper : XdbfWrapper :=
  { mem := exOversized, data_ := some 0, data_size_ := 34, header_ := some 0,
    entries_ := some 16, files_ := some 34, content_offset_ := some 34 }

/-- Lines 82-89 of `GetStringTableEntry`: resolution inside the string-table Block
that starts at `xstr_head`. -/
def XdbfWrapper.GetStringTableEntry.inBlock (buf : Bytes) (xstr_head string_id : Nat) :
    Option Bytes := do
  let ptr := xstr_head + sizeofXdbfXstrHeader
  let string_count ← readU32 buf (xstr_head + 8)
  GetStringTableEntry_ buf ptr string_id string_count

/-- An achievements block header. -/
def encXachHeader (magic version count : Nat) : Bytes :=
  encU32 magic ++ encU32 version ++ encU32 count

/-- One stored achievement record. -/
def encXachEntry (id image_id gamerscore flags label_id description_id unachieved_id : Nat) :
    Bytes :=
  encU32 id ++ encU32 image_id ++ encU32 gamerscore ++ encU32 flags ++ encU16 label_id ++
    encU16 description_id ++ encU16 unachieved_id

/-- The well-formedness of string records the serialisation assumes: a 16-bit id, a
text of fewer than 2^16 bytes. -/
def StringsOk (rs : List (Nat × Bytes)) : Prop :=
  ∀ r ∈ rs, r.1 < 2 ^ 16 ∧ r.2.length < 2 ^ 16 ∧ ∀ b ∈ r.2, b < 256

instance (rs : List (Nat × Bytes)) : Decidable (StringsOk rs) := by
  unfold StringsOk; infer_instance

/-- The achievement stored at offset `p`, its three texts looked up in `rs`. -/
def achRecord (buf : Bytes) (rs : List (Nat × Bytes)) (p : Nat) : XbdfAchievement :=
  { id := (readU32 buf p).getD 0,
    image_id := (readU32 buf (p + 4)).getD 0,
    gamerscore := (readU32 buf (p + 8)).getD 0,
    flags := (readU32 buf (p + 12)).getD 0,
    label := lookupString rs ((readU16 buf (p + 16)).getD 0),
    description := lookupString rs ((readU16 buf (p + 18)).getD 0),
    unachieved_desc := lookupString rs ((readU16 buf (p + 20)).getD 0) }

/-- The `n` achievements stored contiguously from offset `p`, in storage order. -/
def achRecords (buf : Bytes) (rs : List (Nat × Bytes)) : Nat → Nat → List XbdfAchievement
  | 0, _ => []
  | n + 1, p => achRecord buf rs p :: achRecords buf rs n (p + sizeofXbdfXachEntry)

/-- A container whose only entry, the string table of locale 1, declares a Block of
12 bytes (the block header alone) while the header announces one record, which
follows the Block in the buffer: `(7, "AB")`. -/
def exShortBlock : Bytes :=
  encHeader kXdbfMagicXdbf 1 1 0
    ++ encEntry ⟨3, 1, 0, 12⟩
    ++ encXstrHeader kXdbfMagicXstr 1 1
    ++ encStrings [(7, [65, 66])]

/-- The object the constructor builds from `exShortBlock`. -/
def exShortBlockWrapper : XdbfWrapper :=
  { mem := exShortBlock, data_ := some 0, data_size_ := 52, header_ := some 0,
    entries_ := some 16, files_ := some 34, content_offset_ := some 34 }

/-- A container whose string table for locale 1 has magic 0 and version 2, followed
by one record `(7, "AB")`. -/
def exBadXstr : Bytes :=
  encHeader kXdbfMagicXdbf 1 1 0
    ++ encEntry ⟨3, 1, 0, 18⟩
    ++ encXstrHeader 0 2 1
    ++ encStrings [(7, [65, 66])]

/-- The object the constructor builds from `exBadXstr`. -/
def exBadXstrWrapper : XdbfWrapper :=
  { mem := exBadXstr, data_ := some 0, data_size_ := 52, header_ := some 0,
    entries_ := some 16, files_ := some 34, content_offset_ := some 34 }

/-- A container with an achievements block declaring two records and no string table. -/
def exAchNoStrings : Bytes :=
  encHeader kXdbfMagicXdbf 1 1 0
    ++ encEntry ⟨1, kXdbfIdXach, 0, 12⟩
    ++ encXachHeader kXdbfMagicXach 1 2

/-- The object the constructor builds from `exAchNoStrings`. -/
def exAchNoStringsWrapper : XdbfWrapper :=
  { mem := exAchNoStrings, data_ := some 0, data_size_ := 46, header_ := some 0,
    entries_ := some 16, files_ := some 34, content_offset_ := some 34 }

/-- A container with an achievements block of one record (label id 1, description
id 2, unachieved id 3) and the string table `exStrings` for locale 1. -/
def exAchievements : Bytes :=
  encHeader kXdbfMagicXdbf 2 2 0
    ++ encEntry ⟨1, kXdbfIdXach, 0, 34⟩
    ++ encEntry ⟨3, 1, 34, 30⟩
    ++ encXachHeader kXdbfMagicXach 1 1
    ++ encXachEntry 5 6 10 0 1 2 3
    ++ encXstrHeader kXdbfMagicXstr 1 2
    ++ encStrings exStrings

/-- The object the constructor builds from `exAchievements`. -/
def exAchievementsWrapper : XdbfWrapper :=
  { mem := exAchievements, data_ := some 0, data_size_ := 116, header_ := some 0,
    entries_ := some 16, files_ := some 52, content_offset_ := some 52 }

/-- The container `exAchievements` with magic 0 and version 2 in the achievements
block header. -/
def exBadXach : Bytes :=
  encHeader kXdbfMagicXdbf 2 2 0
    ++ encEntry ⟨1, kXdbfIdXach, 0, 34⟩
    ++ encEntry ⟨3, 1, 34, 30⟩
    ++ encXachHeader 0 2 1
    ++ encXachEntry 5 6 10 0 1 2 3
    ++ encXstrHeader kXdbfMagicXstr 1 2
    ++ encStrings exStrings

/-- The object the constructor builds from `exBadXach`. -/
def exBadXachWrapper : XdbfWrapper :=
  { mem := exBadXach, data_ := some 0, data_size_ := 116, header_ := some 0,
    entries_ := some 16, files_ := some 52, content_offset_ := some 52 }

/-- A container with a locale block declaring default language 2 and a string table
for locale 2 holding `0x8000 -> "Halo 3"`. -/
def exTitle : Bytes :=
  encHeader kXdbfMagicXdbf 2 2 0
    ++ encEntry ⟨1, kXdbfIdXstc, 0, 8⟩
    ++ encEntry ⟨3, 2, 8, 22⟩
    ++ encU32 kXdbfMagicXstc ++ encU32 2
    ++ encXstrHeader kXdbfMagicXstr 1 1
    ++ encStrings [(0x8000, [72, 97, 108, 111, 32, 51])]

/-- The object the constructor builds from `exTitle`. -/
def exTitleWrapper : XdbfWrapper :=
  { mem := exTitle, data_ := some 0, data_size_ := 82, header_ := some 0,
    entries_ := some 16, files_ := some 52, content_offset_ := some 52 }

/-- A container whose three used entries all carry id 0x8000, in the StringTable,
Metadata and Image sections in this order. -/
def exIcon : Bytes :=
  encHeader kXdbfMagicXdbf 3 3 0
    ++ encEntry ⟨3, 0x8000, 0, 4⟩
    ++ encEntry ⟨1, 0x8000, 4, 4⟩
    ++ encEntry ⟨2, 0x8000, 8, 4⟩
    ++ [1, 2, 3, 4, 5, 6, 7, 8, 9, 10, 11, 12]

/-- The object the constructor builds from `exIcon`. -/
def exIconWrapper : XdbfWrapper :=
  { mem := exIcon, data_ := some 0, data_size_ := 82, header_ := some 0,
    entries_ := some 16, files_ := some 70, content_offset_ := some 70 }

/-- The container `exIcon` with a used-slot count of 2: the Image entry is stored but
not live. -/
def exIconDead : Bytes :=
  encHeader kXdbfMagicXdbf 3 2 0
    ++ encEntry ⟨3, 0x8000, 0, 4⟩
    ++ encEntry ⟨1, 0x8000, 4, 4⟩
    ++ encEntry ⟨2, 0x8000, 8, 4⟩
    ++ [1, 2, 3, 4, 5, 6, 7, 8, 9, 10, 11, 12]

/-- The object the constructor builds from `exIconDead`. -/
def exIconDeadWrapper : XdbfWrapper :=
  { mem := exIconDead, data_ := some 0, data_size_ := 82, header_ := some 0,
    entries_ := some 16, files_ := some 70, content_offset_ := some 70 }

/-- A 17-byte container with the slot and free-list counts of `exDirectory`, no used
slot and no directory behind the header. -/
def exDirectoryAlt : Bytes := encHeader kXdbfMagicXdbf 4 0 1 ++ [9]

/-- The object the constructor builds from `exDirectoryAlt`. -/
def exDirectoryAltWrapper : XdbfWrapper :=
  { mem := exDirectoryAlt, data_ := some 0, data_size_ := 17, header_ := some 0,
    entries_ := some 16, files_ := some 88, content_offset_ := some 96 }

/-- A 40-byte container declaring no directory slot, one used slot and three 8-byte
free-list records: the free list occupies bytes 16..39, where the used slot 0 is read.
Here the free list holds the bytes of the entry `(Image, 0x8000)`. -/
def exFreeA : Bytes :=
  encHeader kXdbfMagicXdbf 0 1 3 ++ encEntry ⟨2, 0x8000, 0, 5⟩ ++ [0, 0, 0, 0, 0, 0]

/-- The container `exFreeA` with a free list of zero bytes. -/
def exFreeB : Bytes :=
  encHeader kXdbfMagicXdbf 0 1 3 ++ List.replicate 24 0

/-- The object the constructor builds from `exFreeA`. -/
def exFreeAWrapper : XdbfWrapper :=
  { mem := exFreeA, data_ := some 0, data_size_ := 40, header_ := some 0,
    entries_ := some 16, files_ := some 16, content_offset_ := some 40 }

/-- The object the constructor builds from `exFreeB`. -/
def exFreeBWrapper : XdbfWrapper :=
  { mem := exFreeB, data_ := some 0, data_size_ := 40, header_ := some 0,
    entries_ := some 16, files_ := some 16, content_offset_ := some 40 }

/-- 65535 string records `(8, "")`. -/
def exWideTail : List (Nat × Bytes) :=
  List.replicate 65535 (8, [])

/-- 65536 string records: `(7, "AB")` followed by the 65535 records of `exWideTail`. -/
def exWideRecords : List (Nat × Bytes) :=
  (7, [65, 66]) :: exWideTail

/-- A string-table block whose header declares the 65536 records of `exWideRecords`. -/
def exWideBlock : Bytes :=
  encXstrHeader kXdbfMagicXstr 1 65536 ++ encStrings exWideRecords

/-- A record already present in a destination list. -/
def exEarlier : XbdfAchievement :=
  { id := 1, image_id := 2, gamerscore := 3, flags := 4, label := [76],
    description := [68], unachieved_desc := [85] }

/-- The record `GetAchievements` decodes from `exAchievements` for locale 1. -/
def exDecoded : XbdfAchievement :=
  { id := 5, image_id := 6, gamerscore := 10, flags := 0,
    label := [72, 101, 108, 108, 111], description := [87, 111, 114, 108, 100],
    unachieved_desc := [] }

/-! ## Facts about the checked reads -/

theorem readU8_isSome (buf : Bytes) (p : Nat) : (readU8 buf p).isSome ↔ p < buf.length := by
  by_cases h : p < buf.length
  · simp [readU8, List.getElem?_eq_getElem h, h]
  · simp [readU8, List.getElem?_eq_none (Nat.le_of_not_lt h), h]

theorem readU8_lt {buf : Bytes} {p v : Nat} (h : readU8 buf p = some v) : v < 256 := by
  simp only [readU8, Option.map_eq_some'] at h
  obtain ⟨b, _, rfl⟩ := h
  exact Nat.mod_lt _ (by norm_num)

theorem readU8_of_lt (buf : Bytes) (p : Nat) (h : p < buf.length) :
    ∃ v, readU8 buf p = some v := by
  have := (readU8_isSome buf p).2 h
  exact Option.isSome_iff_exists.1 this

theorem readU8_bound {buf : Bytes} {p v : Nat} (h : readU8 buf p = some v) : p < buf.length :=
  (readU8_isSome buf p).1 (by simp [h])

theorem readU16_isSome (buf : Bytes) (p : Nat) : (readU16 buf p).isSome ↔ p + 2 ≤ buf.length := by
  constructor
  · intro h
    obtain ⟨v, hv⟩ := Option.isSome_iff_exists.1 h
    simp only [readU16, Option.bind_eq_bind, Option.bind_eq_some, Option.pure_def] at hv
    obtain ⟨a, _, b, hb, _⟩ := hv
    have := readU8_bound hb
    omega
  · intro h
    obtain ⟨a, ha⟩ := readU8_of_lt buf p (by omega)
    obtain ⟨b, hb⟩ := readU8_of_lt buf (p + 1) (by omega)
    simp [readU16, ha, hb]

theorem readU16_lt {buf : Bytes} {p v : Nat} (h : readU16 buf p = some v) : v < 65536 := by
  simp only [readU16, Option.bind_eq_bind, Option.bind_eq_some, Option.pure_def,
    Option.some.injEq] at h
  obtain ⟨a, ha, b, hb, rfl⟩ := h
  have := readU8_lt ha
  have := readU8_lt hb
  omega

theorem readU32_isSome (buf : Bytes) (p : Nat) : (readU32 buf p).isSome ↔ p + 4 ≤ buf.length := by
  constructor
  · intro h
    obtain ⟨v, hv⟩ := Option.isSome_iff_exists.1 h
    simp only [readU32, Option.bind_eq_bind, Option.bind_eq_some, Option.pure_def] at hv
    obtain ⟨a, _, b, hb, _⟩ := hv
    have := (readU16_isSome buf (p + 2)).1 (by simp [hb])
    omega
  · intro h
    obtain ⟨a, ha⟩ := Option.isSome_iff_exists.1 ((readU16_isSome buf p).2 (by omega))
    obtain ⟨b, hb⟩ := Option.isSome_iff_exists.1 ((readU16_isSome buf (p + 2)).2 (by omega))
    simp [readU32, ha, hb]

theorem readU32_lt {buf : Bytes} {p v : Nat} (h : readU32 buf p = some v) : v < 4294967296 := by
  simp only [readU32, Option.bind_eq_bind, Option.bind_eq_some, Option.pure_def,
    Option.some.injEq] at h
  obtain ⟨a, ha, b, hb, rfl⟩ := h
  have := readU16_lt ha
  have := readU16_lt hb
  omega

theorem readU64_isSome (buf : Bytes) (p : Nat) : (readU64 buf p).isSome ↔ p + 8 ≤ buf.length := by
  constructor
  · intro h
    obtain ⟨v, hv⟩ := Option.isSome_iff_exists.1 h
    simp only [readU64, Option.bind_eq_bind, Option.bind_eq_some, Option.pure_def] at hv
    obtain ⟨a, _, b, hb, _⟩ := hv
    have := (readU32_isSome buf (p + 4)).1 (by simp [hb])
    omega
  · intro h
    obtain ⟨a, ha⟩ := Option.isSome_iff_exists.1 ((readU32_isSome buf p).2 (by omega))
    obtain ⟨b, hb⟩ := Option.isSome_iff_exists.1 ((readU32_isSome buf (p + 4)).2 (by omega))
    simp [readU64, ha, hb]

theorem readU64_lt {buf : Bytes} {p v : Nat} (h : readU64 buf p = some v) :
    v < 18446744073709551616 := by
  simp only [readU64, Option.bind_eq_bind, Option.bind_eq_some, Option.pure_def,
    Option.some.injEq] at h
  obtain ⟨a, ha, b, hb, rfl⟩ := h
  have := readU32_lt ha
  have := readU32_lt hb
  omega

theorem readU16_of_le (buf : Bytes) (p : Nat) (h : p + 2 ≤ buf.length) :
    ∃ v, readU16 buf p = some v :=
  Option.isSome_iff_exists.1 ((readU16_isSome buf p).2 h)

theorem readU32_of_le (buf : Bytes) (p : Nat) (h : p + 4 ≤ buf.length) :
    ∃ v, readU32 buf p = some v :=
  Option.isSome_iff_exists.1 ((readU32_isSome buf p).2 h)

theorem readU64_of_le (buf : Bytes) (p : Nat) (h : p + 8 ≤ buf.length) :
    ∃ v, readU64 buf p = some v :=
  Option.isSome_iff_exists.1 ((readU64_isSome buf p).2 h)

theorem readU16_bound {buf : Bytes} {p v : Nat} (h : readU16 buf p = some v) :
    p + 2 ≤ buf.length :=
  (readU16_isSome buf p).1 (by simp [h])

theorem readU32_bound {buf : Bytes} {p v : Nat} (h : readU32 buf p = some v) :
    p + 4 ≤ buf.length :=
  (readU32_isSome buf p).1 (by simp [h])

theorem readU64_bound {buf : Bytes} {p v : Nat} (h : readU64 buf p = some v) :
    p + 8 ≤ buf.length :=
  (readU64_isSome buf p).1 (by simp [h])

/-! ## Facts about the directory view -/

theorem entryAt_eq_some {w : XdbfWrapper} {i : Nat} {e : XbdfEntry} :
    w.entryAt i = some e ↔
      ∃ es, w.entries_ = some es ∧
        readU16 w.mem (es + sizeofXbdfEntry * i) = some e.sect ∧
        readU64 w.mem (es + sizeofXbdfEntry * i + 2) = some e.id ∧
        readU32 w.mem (es + sizeofXbdfEntry * i + 10) = some e.offset ∧
        readU32 w.mem (es + sizeofXbdfEntry * i + 14) = some e.size := by
  cases e with
  | mk s id off sz =>
    simp only [XdbfWrapper.entryAt, Option.bind_eq_bind, Option.bind_eq_some,
      Option.some.injEq, XbdfEntry.mk.injEq]
    constructor
    · rintro ⟨es, hes, a, ha, b, hb, c, hc, d, hd, rfl, rfl, rfl, rfl⟩
      exact ⟨es, hes, ha, hb, hc, hd⟩
    · rintro ⟨es, hes, ha, hb, hc, hd⟩
      exact ⟨es, hes, s, ha, id, hb, off, hc, sz, hd, rfl, rfl, rfl, rfl⟩

theorem entryAt_of_le {w : XdbfWrapper} {es i : Nat} (hes : w.entries_ = some es)
    (h : es + sizeofXbdfEntry * i + sizeofXbdfEntry ≤ w.mem.length) :
    ∃ e, w.entryAt i = some e := by
  simp only [sizeofXbdfEntry] at h
  obtain ⟨a, ha⟩ := readU16_of_le w.mem (es + sizeofXbdfEntry * i) (by simp only [sizeofXbdfEntry]; omega)
  obtain ⟨b, hb⟩ := readU64_of_le w.mem (es + sizeofXbdfEntry * i + 2) (by simp only [sizeofXbdfEntry]; omega)
  obtain ⟨c, hc⟩ := readU32_of_le w.mem (es + sizeofXbdfEntry * i + 10) (by simp only [sizeofXbdfEntry]; omega)
  obtain ⟨d, hd⟩ := readU32_of_le w.mem (es + sizeofXbdfEntry * i + 14) (by simp only [sizeofXbdfEntry]; omega)
  exact ⟨⟨a, b, c, d⟩, entryAt_eq_some.2 ⟨es, hes, ha, hb, hc, hd⟩⟩

theorem entryAt_bound {w : XdbfWrapper} {i : Nat} {e : XbdfEntry} (h : w.entryAt i = some e) :
    ∃ es, w.entries_ = some es ∧ es + sizeofXbdfEntry * i + sizeofXbdfEntry ≤ w.mem.length := by
  obtain ⟨es, hes, _, _, _, hd⟩ := entryAt_eq_some.1 h
  have := readU32_bound hd
  exact ⟨es, hes, by simp only [sizeofXbdfEntry] at *; omega⟩

theorem entryAt_below {w : XdbfWrapper} {j k : Nat} {e : XbdfEntry} (h : w.entryAt k = some e)
    (hjk : j ≤ k) : ∃ e', w.entryAt j = some e' := by
  obtain ⟨es, hes, hb⟩ := entryAt_bound h
  refine entryAt_of_le hes ?_
  have : sizeofXbdfEntry * j ≤ sizeofXbdfEntry * k := Nat.mul_le_mul_left _ hjk
  omega

/-! ## Facts about the directory scan -/

theorem scan_skip {w : XdbfWrapper} {sec id i : Nat} {e : XbdfEntry} (n : Nat)
    (he : w.entryAt i = some e) (hne : ¬ (e.sect = sec ∧ e.id = id)) :
    XdbfWrapper.GetEntry.scan w sec id (n + 1) i = XdbfWrapper.GetEntry.scan w sec id n (i + 1) := by
  obtain ⟨es, hes, ha, hb, _, _⟩ := entryAt_eq_some.1 he
  by_cases hs : e.sect = sec
  · have hid : e.id ≠ id := fun h => hne ⟨hs, h⟩
    simp [XdbfWrapper.GetEntry.scan, hes, ha, hb, hs, hid]
  · simp [XdbfWrapper.GetEntry.scan, hes, ha, hs]

theorem scan_take {w : XdbfWrapper} {sec id i c : Nat} {e : XbdfEntry} (n : Nat)
    (he : w.entryAt i = some e) (hs : e.sect = sec) (hid : e.id = id)
    (hc : w.content_offset_ = some c) :
    XdbfWrapper.GetEntry.scan w sec id (n + 1) i =
      some { buffer := some (c + e.offset), size := e.size } := by
  obtain ⟨es, hes, ha, hb, hc', hd⟩ := entryAt_eq_some.1 he
  simp [XdbfWrapper.GetEntry.scan, hes, ha, hb, hc', hd, hs, hid, hc]

theorem scan_hit {w : XdbfWrapper} {sec id c k : Nat} {e : XbdfEntry}
    (he : w.entryAt k = some e) (hs : e.sect = sec) (hid : e.id = id)
    (hc : w.content_offset_ = some c) :
    ∀ (n i : Nat), i ≤ k → k < i + n →
      (∀ j, i ≤ j → j < k → ∀ e', w.entryAt j = some e' → ¬ (e'.sect = sec ∧ e'.id = id)) →
      XdbfWrapper.GetEntry.scan w sec id n i =
        some { buffer := some (c + e.offset), size := e.size } := by
  intro n
  induction n with
  | zero => intro i h1 h2; omega
  | succ n ih =>
    intro i h1 h2 hfirst
    rcases Nat.eq_or_lt_of_le h1 with rfl | hlt
    · exact scan_take n he hs hid hc
    · obtain ⟨e', he'⟩ := entryAt_below he h1
      rw [scan_skip n he' (hfirst i (le_refl _) hlt e' he')]
      exact ih (i + 1) hlt (by omega) (fun j hj hjk => hfirst j (by omega) hjk)

theorem scan_miss {w : XdbfWrapper} {sec id : Nat} :
    ∀ (n i : Nat),
      (∀ j, i ≤ j → j < i + n → ∃ e, w.entryAt j = some e ∧ ¬ (e.sect = sec ∧ e.id = id)) →
      XdbfWrapper.GetEntry.scan w sec id n i = some XdbfBlock.empty := by
  intro n
  induction n with
  | zero => intro i _; rfl
  | succ n ih =>
    intro i hall
    obtain ⟨e, he, hne⟩ := hall i (le_refl _) (by omega)
    rw [scan_skip n he hne]
    exact ih (i + 1) (fun j hj hjn => hall j (by omega) (by omega))

theorem scan_sound {w : XdbfWrapper} {sec id p sz : Nat} :
    ∀ (n i : Nat),
      XdbfWrapper.GetEntry.scan w sec id n i = some { buffer := some p, size := sz } →
      ∃ k e c, i ≤ k ∧ k < i + n ∧ w.entryAt k = some e ∧ e.sect = sec ∧ e.id = id ∧
        w.content_offset_ = some c ∧ p = c + e.offset ∧ sz = e.size := by
  intro n
  induction n with
  | zero => intro i h; simp [XdbfWrapper.GetEntry.scan, XdbfBlock.empty] at h
  | succ n ih =>
    intro i h
    simp only [XdbfWrapper.GetEntry.scan, Option.bind_eq_bind, Option.bind_eq_some] at h
    obtain ⟨es, hes, s, hsr, h⟩ := h
    split at h
    · rename_i hs
      simp only [Option.bind_eq_bind, Option.bind_eq_some] at h
      obtain ⟨eid, hidr, h⟩ := h
      split at h
      · rename_i hid
        simp only [Option.bind_eq_bind, Option.bind_eq_some, Option.some.injEq,
          XdbfBlock.mk.injEq] at h
        obtain ⟨c, hc, off, hoff, sz', hsz, hp, hsz'⟩ := h
        refine ⟨i, ⟨s, eid, off, sz'⟩, c, le_refl _, by omega, ?_, hs, hid, hc, hp.symm, hsz'.symm⟩
        exact entryAt_eq_some.2 ⟨es, hes, hsr, hidr, hoff, hsz⟩
      · obtain ⟨k, e, c, h1, h2, rest⟩ := ih (i + 1) h
        exact ⟨k, e, c, by omega, by omega, rest⟩
    · obtain ⟨k, e, c, h1, h2, rest⟩ := ih (i + 1) h
      exact ⟨k, e, c, by omega, by omega, rest⟩

/-! ## Facts about the constructor -/

theorem new_cases {fl : Nat} {data : Option Bytes} {n : Nat} {w : XdbfWrapper}
    (hw : XdbfWrapper.new fl data n = some w) :
    (data = none ∧ w = XdbfWrapper.unset [] n) ∨
    (∃ buf, data = some buf ∧ n ≤ sizeofXbdfHeader ∧ w = XdbfWrapper.unset buf n) ∨
    (∃ buf magic, data = some buf ∧ sizeofXbdfHeader < n ∧ readU32 buf 0 = some magic ∧
      magic ≠ kXdbfMagicXdbf ∧
      w = { XdbfWrapper.unset buf n with header_ := some 0 }) ∨
    (∃ buf ec fc, data = some buf ∧ sizeofXbdfHeader < n ∧
      readU32 buf 0 = some kXdbfMagicXdbf ∧ readU32 buf 4 = some ec ∧
      readU32 buf 12 = some fc ∧
      w = { mem := buf, data_ := some 0, data_size_ := n, header_ := some 0,
            entries_ := some sizeofXbdfHeader,
            files_ := some (sizeofXbdfHeader + mulSizeT sizeofXbdfEntry ec),
            content_offset_ :=
              some (sizeofXbdfHeader + mulSizeT sizeofXbdfEntry ec + mulSizeT fl fc) }) := by
  cases data with
  | none =>
    left
    simp only [XdbfWrapper.new, Option.some.injEq] at hw
    exact ⟨rfl, hw.symm⟩
  | some buf =>
    right
    simp only [XdbfWrapper.new] at hw
    split at hw
    · rename_i hle
      left
      simp only [Option.some.injEq] at hw
      exact ⟨buf, rfl, hle, hw.symm⟩
    · rename_i hgt
      right
      simp only [Option.bind_eq_bind, Option.bind_eq_some, Nat.zero_add] at hw
      obtain ⟨magic, hm, hw⟩ := hw
      split at hw
      · rename_i hne
        left
        simp only [Option.some.injEq] at hw
        exact ⟨buf, magic, rfl, by omega, hm, hne, hw.symm⟩
      · rename_i heq
        right
        simp only [Option.bind_eq_bind, Option.bind_eq_some, Option.some.injEq] at hw
        obtain ⟨ec, hec, fc, hfc, hw⟩ := hw
        have heq' : magic = kXdbfMagicXdbf := by
          by_contra hcon
          exact heq hcon
        subst heq'
        exact ⟨buf, ec, fc, rfl, by omega, hm, hec, hfc, hw.symm⟩

theorem new_valid {fl : Nat} {data : Option Bytes} {n : Nat} {w : XdbfWrapper}
    (hw : XdbfWrapper.new fl data n = some w) (hv : w.is_valid = true) :
    ∃ buf ec fc, data = some buf ∧ sizeofXbdfHeader < n ∧
      readU32 buf 0 = some kXdbfMagicXdbf ∧ readU32 buf 4 = some ec ∧
      readU32 buf 12 = some fc ∧
      w = { mem := buf, data_ := some 0, data_size_ := n, header_ := some 0,
            entries_ := some sizeofXbdfHeader,
            files_ := some (sizeofXbdfHeader + mulSizeT sizeofXbdfEntry ec),
            content_offset_ :=
              some (sizeofXbdfHeader + mulSizeT sizeofXbdfEntry ec + mulSizeT fl fc) } := by
  rcases new_cases hw with ⟨_, rfl⟩ | ⟨buf, _, _, rfl⟩ | ⟨buf, magic, _, _, _, _, rfl⟩ | h
  · simp [XdbfWrapper.is_valid, XdbfWrapper.unset] at hv
  · simp [XdbfWrapper.is_valid, XdbfWrapper.unset] at hv
  · simp [XdbfWrapper.is_valid, XdbfWrapper.unset] at hv
  · exact h

theorem new_total (fl : Nat) (buf : Bytes) :
    ∃ w, XdbfWrapper.new fl (some buf) buf.length = some w := by
  by_cases hle : buf.length ≤ sizeofXbdfHeader
  · exact Option.isSome_iff_exists.1 (by simp [XdbfWrapper.new, hle])
  · have hlen : 16 < buf.length := by simp only [sizeofXbdfHeader] at hle; omega
    obtain ⟨m, hm⟩ := readU32_of_le buf 0 (by omega)
    obtain ⟨ec, hec⟩ := readU32_of_le buf 4 (by omega)
    obtain ⟨fc, hfc⟩ := readU32_of_le buf 12 (by omega)
    by_cases hmag : m = kXdbfMagicXdbf
    · exact Option.isSome_iff_exists.1 (by simp [XdbfWrapper.new, hle, hm, hec, hfc, hmag])
    · exact Option.isSome_iff_exists.1 (by simp [XdbfWrapper.new, hle, hm, hmag])

theorem GetEntry_eq_scan {w : XdbfWrapper} {used : Nat} (hused : w.entry_used = some used)
    (sec : XdbfSection) (id : Nat) :
    w.GetEntry sec id = XdbfWrapper.GetEntry.scan w sec.toU16 (id % 2 ^ 64) used 0 := by
  simp only [XdbfWrapper.entry_used, Option.bind_eq_bind, Option.bind_eq_some] at hused
  obtain ⟨h, hh, hu⟩ := hused
  simp [XdbfWrapper.GetEntry, hh, hu]

/-! ## Lookup -/

/-- C1. Lookup hit: on a valid container, when a directory entry `e` at index
`k < used_slot_count` carries the key `(section, id)` and no entry before it does,
`GetEntry` returns the Block with start = content-region start + `e.offset` and
length = `e.size`. -/
theorem GetEntry_first_match (fl : Nat) (data : Option Bytes) (data_size : Nat)
    (w : XdbfWrapper) (sec : XdbfSection) (id used k : Nat) (e : XbdfEntry)
    (hw : XdbfWrapper.new fl data data_size = some w) (hv : w.is_valid = true)
    (hused : w.entry_used = some used) (hk : k < used)
    (he : w.entryAt k = some e) (hkey : e.hasKey sec id)
    (hfirst : ∀ j, j < k → ∀ e', w.entryAt j = some e' → ¬ e'.hasKey sec id) :
    ∃ c, w.content_offset_ = some c ∧
      w.GetEntry sec id = some { buffer := some (c + e.offset), size := e.size } := by
  obtain ⟨buf, ec, fc, _, _, _, _, _, rfl⟩ := new_valid hw hv
  refine ⟨_, rfl, ?_⟩
  obtain ⟨_, _, _, hidr, _, _⟩ := entryAt_eq_some.1 he
  have hid : id % 2 ^ 64 = id := by
    have := readU64_lt hidr
    rw [hkey.2] at this
    exact Nat.mod_eq_of_lt (by simpa using this)
  rw [GetEntry_eq_scan hused, hid]
  exact scan_hit he hkey.1 hkey.2 rfl used 0 (Nat.zero_le _) (by omega)
    (fun j _ hjk e' he' => hfirst j hjk e' he')

theorem GetEntry_first_match_witness :
    ∃ c, exDirectoryWrapper.content_offset_ = some c ∧
      exDirectoryWrapper.GetEntry .kStringTable 1 =
        some { buffer := some (c + (⟨3, 1, 0, 30⟩ : XbdfEntry).offset),
               size := (⟨3, 1, 0, 30⟩ : XbdfEntry).size } :=
  GetEntry_first_match 8 (some exDirectory) 132 exDirectoryWrapper .kStringTable 1 3 2
    ⟨3, 1, 0, 30⟩ (by decide) (by decide) (by decide) (by decide) (by decide) (by decide)
    (by
      intro j hj e' he'
      interval_cases j
      · have h0 : exDirectoryWrapper.entryAt 0 = some ⟨2, 1, 0, 5⟩ := by decide
        rw [h0] at he'
        cases he'
        decide
      · have h1 : exDirectoryWrapper.entryAt 1 = some ⟨3, 2, 5, 7⟩ := by decide
        rw [h1] at he'
        cases he'
        decide)

/-- C2. Lookup miss: on a valid container, when none of the first `used_slot_count`
directory entries carries the key `(section, id)`, `GetEntry` returns the empty Block
(null start, length 0); entries stored at indices `>= used_slot_count` are not
consulted. -/
theorem GetEntry_miss_empty (fl : Nat) (data : Option Bytes) (data_size : Nat)
    (w : XdbfWrapper) (sec : XdbfSection) (id used : Nat)
    (_hw : XdbfWrapper.new fl data data_size = some w) (_hv : w.is_valid = true)
    (hid : id < 2 ^ 64) (hused : w.entry_used = some used)
    (hnone : ∀ j, j < used → ∃ e, w.entryAt j = some e ∧ ¬ e.hasKey sec id) :
    w.GetEntry sec id = some { buffer := none, size := 0 } := by
  rw [GetEntry_eq_scan hused, Nat.mod_eq_of_lt hid]
  exact scan_miss used 0 (fun j _ hj => hnone j (by omega))

theorem GetEntry_miss_empty_witness :
    exDirectoryWrapper.entryAt 3 = some ⟨2, 0x8000, 30, 6⟩ ∧
      exDirectoryWrapper.GetEntry .kImage 0x8000 = some { buffer := none, size := 0 } :=
  ⟨by decide,
   GetEntry_miss_empty 8 (some exDirectory) 132 exDirectoryWrapper .kImage 0x8000 3
    (by decide) (by decide) (by decide) (by decide)
    (by
      intro j hj
      interval_cases j
      · exact ⟨⟨2, 1, 0, 5⟩, by decide, by decide⟩
      · exact ⟨⟨3, 2, 5, 7⟩, by decide, by decide⟩
      · exact ⟨⟨3, 1, 0, 30⟩, by decide, by decide⟩)⟩

theorem scan_total {w : XdbfWrapper} {sec id c : Nat} (hc : w.content_offset_ = some c) :
    ∀ (n i : Nat), (∀ j, i ≤ j → j < i + n → ∃ e, w.entryAt j = some e) →
      ∃ b, XdbfWrapper.GetEntry.scan w sec id n i = some b := by
  intro n
  induction n with
  | zero => intro i _; exact ⟨_, rfl⟩
  | succ n ih =>
    intro i hall
    obtain ⟨e, he⟩ := hall i (le_refl _) (by omega)
    by_cases hm : e.sect = sec ∧ e.id = id
    · exact ⟨_, scan_take n he hm.1 hm.2 hc⟩
    · rw [scan_skip n he hm]
      exact ih (i + 1) (fun j hj hjn => hall j (by omega) (by omega))

theorem GetEntry_of_null_entries {w : XdbfWrapper} (hes : w.entries_ = none)
    (sec : XdbfSection) (id : Nat) :
    w.GetEntry sec id = if w.entry_used = some 0 then some XdbfBlock.empty else none := by
  cases hh : w.header_ with
  | none => simp [XdbfWrapper.GetEntry, XdbfWrapper.entry_used, hh]
  | some h =>
    cases hu : readU32 w.mem (h + 8) with
    | none => simp [XdbfWrapper.GetEntry, XdbfWrapper.entry_used, hh, hu]
    | some u =>
      cases u with
      | zero =>
        simp [XdbfWrapper.GetEntry, XdbfWrapper.entry_used, hh, hu, XdbfWrapper.GetEntry.scan]
      | succ u =>
        simp [XdbfWrapper.GetEntry, XdbfWrapper.entry_used, hh, hu, XdbfWrapper.GetEntry.scan,
          hes]

theorem invalid_null_entries {fl : Nat} {data : Option Bytes} {n : Nat} {w : XdbfWrapper}
    (hw : XdbfWrapper.new fl data n = some w) (hv : w.is_valid = false) :
    w.entries_ = none := by
  rcases new_cases hw with ⟨_, rfl⟩ | ⟨buf, _, _, rfl⟩ | ⟨buf, magic, _, _, _, _, rfl⟩ |
    ⟨buf, ec, fc, _, _, _, _, _, rfl⟩
  · rfl
  · rfl
  · rfl
  · simp [XdbfWrapper.is_valid] at hv

/-! ## Validity -/

/-- C3, as stated, fails: the 16-byte buffer `exHeaderOnly` is large enough to hold
the fixed header and carries the container magic, yet the container built from it is
invalid. -/
theorem is_valid_header_only_counterexample :
    sizeofXbdfHeader ≤ exHeaderOnly.length ∧
    readU32 exHeaderOnly 0 = some kXdbfMagicXdbf ∧
    XdbfWrapper.new 8 (some exHeaderOnly) exHeaderOnly.length =
      some (XdbfWrapper.unset exHeaderOnly 16) ∧
    (XdbfWrapper.unset exHeaderOnly 16).is_valid = false := by
  decide

/-- C3, amended. A container constructed from `(buffer, length)` is valid if and only
if the buffer is non-null, `length` is strictly greater than the size of the fixed
header, and the header's magic equals the container tag 'XDBF'. -/
theorem is_valid_iff (fl : Nat) (data : Option Bytes) (data_size : Nat) (w : XdbfWrapper)
    (hw : XdbfWrapper.new fl data data_size = some w) :
    w.is_valid = true ↔
      ∃ buf, data = some buf ∧ sizeofXbdfHeader < data_size ∧
        readU32 buf 0 = some kXdbfMagicXdbf := by
  constructor
  · intro hv
    obtain ⟨buf, ec, fc, hd, hn, hm, _, _, _⟩ := new_valid hw hv
    exact ⟨buf, hd, hn, hm⟩
  · rintro ⟨buf, hd, hn, hm⟩
    rcases new_cases hw with ⟨hd', _⟩ | ⟨buf', _, hle, _⟩ | ⟨buf', magic, hd', _, hm', hne, _⟩ |
      ⟨buf', ec, fc, _, _, _, _, _, rfl⟩
    · rw [hd] at hd'; cases hd'
    · omega
    · rw [hd] at hd'
      cases hd'
      rw [hm] at hm'
      cases hm'
      exact absurd rfl hne
    · rfl

/-- C3, amended, on the container `exDirectory` of 132 bytes. -/
theorem is_valid_iff_witness :
    exDirectoryWrapper.is_valid = true ↔
      ∃ buf, some exDirectory = some buf ∧ sizeofXbdfHeader < 132 ∧
        readU32 buf 0 = some kXdbfMagicXdbf :=
  is_valid_iff 8 (some exDirectory) 132 exDirectoryWrapper (by decide)

/-- C4, as stated, fails: the container built from the wrong-magic buffer
`exWrongMagic` is invalid, and so is the one built from a null buffer, yet `GetEntry`
does not return the empty Block on them: it reads the used-slot count through
`header_`, or dereferences the null `header_` or `entries_`. -/
theorem invalid_not_inert_counterexample :
    XdbfWrapper.new 8 (some exWrongMagic) 17 = some exWrongMagicWrapper ∧
    exWrongMagicWrapper.is_valid = false ∧
    exWrongMagicWrapper.entry_used = some 1 ∧
    exWrongMagicWrapper.GetEntry .kImage kXdbfIdTitle = none ∧
    XdbfWrapper.new 8 none 0 = some (XdbfWrapper.unset [] 0) ∧
    (XdbfWrapper.unset [] 0).is_valid = false ∧
    (XdbfWrapper.unset [] 0).GetEntry .kImage kXdbfIdTitle = none := by
  decide

/-- C4, amended. A container made invalid at construction (null buffer, length not
exceeding the size of the fixed header, or wrong magic) reports `is_valid() = false`.
Its accessors do not test validity and yield nothing but their sentinel: when the
header was reached (wrong magic) and its used-slot count is 0, `GetEntry` and `icon`
return the empty Block, `GetStringTableEntry` and `title` the empty string and
`GetAchievements` 0 leaving the record list as it was; in every other case they have
no result (they read through a null member, or past the buffer when the declared
length exceeds it). -/
theorem invalid_accessors (fl : Nat) (data : Option Bytes) (data_size : Nat)
    (w : XdbfWrapper) (hw : XdbfWrapper.new fl data data_size = some w)
    (hbad : data = none ∨ data_size ≤ sizeofXbdfHeader ∨
      ∃ buf, data = some buf ∧ readU32 buf 0 ≠ some kXdbfMagicXdbf) :
    w.is_valid = false ∧
    (∀ sec id, w.GetEntry sec id =
      if w.entry_used = some 0 then some XdbfBlock.empty else none) ∧
    (∀ locale string_id, w.GetStringTableEntry locale string_id =
      if w.entry_used = some 0 then some [] else none) ∧
    (∀ locale entries, w.GetAchievements locale entries =
      if w.entry_used = some 0 then some (0, entries) else none) ∧
    (XdbfGameData.icon w = if w.entry_used = some 0 then some XdbfBlock.empty else none) ∧
    (XdbfGameData.title w = if w.entry_used = some 0 then some [] else none) := by
  have hv : w.is_valid = false := by
    rcases new_cases hw with ⟨_, rfl⟩ | ⟨buf, _, _, rfl⟩ | ⟨buf, magic, _, _, _, _, rfl⟩ |
      ⟨buf, ec, fc, hd, hn, hm, _, _, _⟩
    · rfl
    · rfl
    · rfl
    · exfalso
      rcases hbad with h | h | ⟨buf', hd', hne⟩
      · rw [hd] at h
        cases h
      · omega
      · rw [hd] at hd'
        cases hd'
        exact hne hm
  refine ⟨hv, ?_⟩
  have hes := invalid_null_entries hw hv
  have hG := GetEntry_of_null_entries hes
  by_cases hu : w.entry_used = some 0
  · simp only [hu, if_true] at hG ⊢
    refine ⟨hG, ?_, ?_, hG _ _, ?_⟩
    · intro locale string_id
      simp [XdbfWrapper.GetStringTableEntry, hG, XdbfBlock.empty]
    · intro locale entries
      simp [XdbfWrapper.GetAchievements, hG, XdbfBlock.empty]
    · simp [XdbfGameData.title, XdbfGameData.default_language, XdbfWrapper.GetStringTableEntry,
        hG, XdbfBlock.empty]
  · simp only [hu, if_false] at hG ⊢
    refine ⟨hG, ?_, ?_, hG _ _, ?_⟩
    · intro locale string_id
      simp [XdbfWrapper.GetStringTableEntry, hG]
    · intro locale entries
      simp [XdbfWrapper.GetAchievements, hG]
    · simp [XdbfGameData.title, XdbfGameData.default_language, hG]

/-- C4, amended, on the wrong-magic container `exWrongMagicIdle`, whose header
declares no used slot. -/
theorem invalid_accessors_witness :
    exWrongMagicIdleWrapper.entry_used = some 0 ∧
    (exWrongMagicIdleWrapper.is_valid = false ∧
    (∀ sec id, exWrongMagicIdleWrapper.GetEntry sec id =
      if exWrongMagicIdleWrapper.entry_used = some 0 then some XdbfBlock.empty else none) ∧
    (∀ locale string_id, exWrongMagicIdleWrapper.GetStringTableEntry locale string_id =
      if exWrongMagicIdleWrapper.entry_used = some 0 then some [] else none) ∧
    (∀ locale entries, exWrongMagicIdleWrapper.GetAchievements locale entries =
      if exWrongMagicIdleWrapper.entry_used = some 0 then some (0, entries) else none) ∧
    (XdbfGameData.icon exWrongMagicIdleWrapper =
      if exWrongMagicIdleWrapper.entry_used = some 0 then some XdbfBlock.empty else none) ∧
    (XdbfGameData.title exWrongMagicIdleWrapper =
      if exWrongMagicIdleWrapper.entry_used = some 0 then some [] else none)) :=
  ⟨by decide,
   invalid_accessors 8 (some exWrongMagicIdle) 17 exWrongMagicIdleWrapper (by decide)
    (Or.inr (Or.inr ⟨exWrongMagicIdle, rfl, by decide⟩))⟩

/-! ## Bounds -/

/-- C5, as stated, fails: the 17-byte buffer `exTruncated` has the container magic and
declares one used slot; slot 0 would occupy bytes 16..33, and `GetEntry` reads past
the end of the buffer. -/
theorem scan_out_of_bounds_counterexample :
    exTruncated.length = 17 ∧
    XdbfWrapper.new 8 (some exTruncated) 17 = some exTruncatedWrapper ∧
    exTruncatedWrapper.is_valid = true ∧
    exTruncatedWrapper.entry_used = some 1 ∧
    ¬ (sizeofXbdfHeader + sizeofXbdfEntry * 1 ≤ exTruncated.length) ∧
    exTruncatedWrapper.GetEntry .kImage kXdbfIdTitle = none := by
  decide

/-- C5, amended. For every byte buffer of any content and length `data_size`,
construction terminates having read only bytes of the buffer.  When the container it
builds is valid and the `used_slot_count` directory slots lie within the buffer, that
is header size + entry size * `used_slot_count` <= `data_size` (a condition the code
does not check), `GetEntry` terminates having read only bytes of the buffer, for every
key. -/
theorem construction_total_scan_bounded (fl : Nat) (buf : Bytes) :
    (∃ w, XdbfWrapper.new fl (some buf) buf.length = some w) ∧
    ∀ (w : XdbfWrapper) (used : Nat) (sec : XdbfSection) (id : Nat),
      XdbfWrapper.new fl (some buf) buf.length = some w → w.is_valid = true →
      w.entry_used = some used →
      sizeofXbdfHeader + sizeofXbdfEntry * used ≤ buf.length →
      ∃ b, w.GetEntry sec id = some b := by
  refine ⟨new_total fl buf, ?_⟩
  intro w used sec id hw hv hused hfit
  obtain ⟨buf', ec, fc, hd, _, _, _, _, rfl⟩ := new_valid hw hv
  cases hd
  rw [GetEntry_eq_scan hused]
  refine scan_total rfl used 0 ?_
  intro j _ hj
  refine entryAt_of_le rfl ?_
  have : sizeofXbdfEntry * (j + 1) ≤ sizeofXbdfEntry * used := Nat.mul_le_mul_left _ (by omega)
  simp only [sizeofXbdfEntry, sizeofXbdfHeader] at *
  omega

/-- C5, amended, on the container `exDirectory`, whose three used slots end at
byte 70 of 132. -/
theorem construction_total_scan_bounded_witness :
    ∃ b, exDirectoryWrapper.GetEntry .kStringTable 1 = some b :=
  (construction_total_scan_bounded 8 exDirectory).2 exDirectoryWrapper 3 .kStringTable 1
    (by decide) (by decide) (by decide) (by decide)

/-- C6, as stated, fails: in the 34-byte container `exOversized` the used entry
`(Image, 0x8000)` declares offset 0 and size 100; `GetEntry` returns the Block starting
at byte 34 with length 100, which ends beyond the buffer. -/
theorem block_outside_buffer_counterexample :
    exOversized.length = 34 ∧
    XdbfWrapper.new 8 (some exOversized) 34 = some exOversizedWrapper ∧
    exOversizedWrapper.is_valid = true ∧
    exOversizedWrapper.GetEntry .kImage kXdbfIdTitle = some { buffer := some 34, size := 100 } ∧
    ¬ (34 + 100 ≤ exOversized.length) := by
  decide

/-- C6, amended. For every valid container and every key, a non-empty Block returned
by `GetEntry` is that of a live directory entry carrying the key: its start is the
content-region start plus the entry's stored 32-bit offset and its length is the
entry's stored 32-bit size.  Neither is compared with `data_size`. -/
theorem GetEntry_block_is_entry (fl : Nat) (data : Option Bytes) (data_size : Nat)
    (w : XdbfWrapper) (sec : XdbfSection) (id p sz : Nat)
    (hw : XdbfWrapper.new fl data data_size = some w) (hv : w.is_valid = true)
    (hb : w.GetEntry sec id = some { buffer := some p, size := sz }) :
    ∃ used k e c, w.entry_used = some used ∧ k < used ∧ w.entryAt k = some e ∧
      e.hasKey sec (id % 2 ^ 64) ∧ w.content_offset_ = some c ∧
      p = c + e.offset ∧ sz = e.size ∧ e.offset < 2 ^ 32 ∧ e.size < 2 ^ 32 := by
  obtain ⟨buf, ec, fc, _, _, _, _, _, rfl⟩ := new_valid hw hv
  cases hu : XdbfWrapper.entry_used _ with
  | none =>
    simp only [XdbfWrapper.entry_used, Option.bind_eq_bind, Option.some_bind] at hu
    simp [XdbfWrapper.GetEntry, hu] at hb
  | some used =>
    rw [GetEntry_eq_scan hu] at hb
    obtain ⟨k, e, c, _, hk, he, hs, hid, hc, hp, hsz⟩ := scan_sound used 0 hb
    obtain ⟨_, _, _, _, hoff, hsize⟩ := entryAt_eq_some.1 he
    exact ⟨used, k, e, c, rfl, by omega, he, ⟨hs, hid⟩, hc, hp, hsz,
      by simpa using readU32_lt hoff, by simpa using readU32_lt hsize⟩

/-- C6, amended, on the container `exOversized`. -/
theorem GetEntry_block_is_entry_witness :
    ∃ used k e c, exOversizedWrapper.entry_used = some used ∧ k < used ∧
      exOversizedWrapper.entryAt k = some e ∧
      e.hasKey .kImage (kXdbfIdTitle % 2 ^ 64) ∧ exOversizedWrapper.content_offset_ = some c ∧
      34 = c + e.offset ∧ 100 = e.size ∧ e.offset < 2 ^ 32 ∧ e.size < 2 ^ 32 :=
  GetEntry_block_is_entry 8 (some exOversized) 34 exOversizedWrapper .kImage kXdbfIdTitle 34 100
    (by decide) (by decide) (by decide)

/-! ## Reads inside a serialised region -/

theorem readU8_append (pre l : Bytes) (i : Nat) :
    readU8 (pre ++ l) (pre.length + i) = readU8 l i := by
  simp [readU8, List.getElem?_append_right]

theorem readU16_append (pre l : Bytes) (i : Nat) :
    readU16 (pre ++ l) (pre.length + i) = readU16 l i := by
  simp only [readU16, readU8_append, Nat.add_assoc]

theorem readU32_append (pre l : Bytes) (i : Nat) :
    readU32 (pre ++ l) (pre.length + i) = readU32 l i := by
  simp only [readU32, readU16_append, Nat.add_assoc]

theorem readU64_append (pre l : Bytes) (i : Nat) :
    readU64 (pre ++ l) (pre.length + i) = readU64 l i := by
  simp only [readU64, readU32_append, Nat.add_assoc]

theorem readBytes_append (pre l : Bytes) (i n : Nat) :
    readBytes (pre ++ l) (pre.length + i) n = readBytes l i n := by
  induction n generalizing i with
  | zero => rfl
  | succ n ih => simp only [readBytes, readU8_append, Nat.add_assoc, ih]

theorem readU16_encU16 (v : Nat) (rest : Bytes) :
    readU16 (encU16 v ++ rest) 0 = some (v % 65536) := by
  simp only [readU16, readU8, encU16, List.cons_append, List.nil_append, List.getElem?_cons_zero,
    List.getElem?_cons_succ, Option.map_some', Option.bind_eq_bind, Option.some_bind,
    Option.pure_def, Option.some.injEq, Nat.zero_add]
  omega

theorem readBytes_text (txt rest : Bytes) (h : ∀ b ∈ txt, b < 256) :
    readBytes (txt ++ rest) 0 txt.length = some txt := by
  induction txt with
  | nil => rfl
  | cons b txt ih =>
    have hb : b % 256 = b := Nat.mod_eq_of_lt (h b (List.mem_cons_self _ _))
    have ht := ih (fun x hx => h x (List.mem_cons_of_mem _ hx))
    have hshift := readBytes_append [b] (txt ++ rest) 0 txt.length
    simp only [List.length_singleton, List.singleton_append, Nat.add_zero] at hshift
    simp only [List.length_cons, readBytes, readU8, List.cons_append, List.getElem?_cons_zero,
      Option.map_some', Option.bind_eq_bind, Option.some_bind, Nat.zero_add, hshift, ht, hb,
      Option.pure_def]

/-! ## String resolution -/

theorem encStrings_cons (r : Nat × Bytes) (rs : List (Nat × Bytes)) :
    encStrings (r :: rs) = encString r ++ encStrings rs := by
  simp [encStrings]

theorem encString_length (r : Nat × Bytes) : (encString r).length = 4 + r.2.length := by
  simp [encString, encU16]
  omega

theorem lookupString_cons (r : Nat × Bytes) (rs : List (Nat × Bytes)) (id : Nat) :
    lookupString (r :: rs) id = if r.1 = id then r.2 else lookupString rs id := by
  by_cases h : r.1 = id <;> simp [lookupString, List.find?_cons, h]

theorem string_scan_spec (suf : Bytes) (string_id : Nat) :
    ∀ (rs : List (Nat × Bytes)) (pre : Bytes),
      (∀ r ∈ rs, r.1 < 2 ^ 16 ∧ r.2.length < 2 ^ 16 ∧ ∀ b ∈ r.2, b < 256) →
      GetStringTableEntry_.scan (pre ++ encStrings rs ++ suf) string_id rs.length pre.length =
        some (lookupString rs string_id) := by
  intro rs
  induction rs with
  | nil => intro pre _; rfl
  | cons r rs ih =>
    intro pre hrec
    obtain ⟨hr1, hr2, hr3⟩ := hrec r (List.mem_cons_self _ _)
    have hbuf : pre ++ encStrings (r :: rs) ++ suf =
        pre ++ (encU16 r.1 ++ (encU16 r.2.length ++ (r.2 ++ (encStrings rs ++ suf)))) := by
      simp [encStrings_cons, encString, List.append_assoc]
    have hid : readU16 (pre ++ encStrings (r :: rs) ++ suf) pre.length = some r.1 := by
      have := readU16_append pre (encU16 r.1 ++ (encU16 r.2.length ++ (r.2 ++ (encStrings rs ++ suf)))) 0
      rw [hbuf]
      rw [Nat.add_zero] at this
      rw [this, readU16_encU16, Nat.mod_eq_of_lt (by simpa using hr1)]
    have hlen : readU16 (pre ++ encStrings (r :: rs) ++ suf) (pre.length + 2) =
        some r.2.length := by
      have h1 : pre ++ encStrings (r :: rs) ++ suf =
          (pre ++ encU16 r.1) ++ (encU16 r.2.length ++ (r.2 ++ (encStrings rs ++ suf))) := by
        simp [encStrings_cons, encString, List.append_assoc]
      have := readU16_append (pre ++ encU16 r.1)
        (encU16 r.2.length ++ (r.2 ++ (encStrings rs ++ suf))) 0
      rw [h1]
      simp only [List.length_append, encU16, List.length_cons, List.length_nil, Nat.add_zero,
        Nat.zero_add] at this
      simp only [encU16]
      rw [this]
      have := readU16_encU16 r.2.length (r.2 ++ (encStrings rs ++ suf))
      simp only [encU16] at this
      rw [this, Nat.mod_eq_of_lt (by simpa using hr2)]
    have htxt : readBytes (pre ++ encStrings (r :: rs) ++ suf) (pre.length + 4) r.2.length =
        some r.2 := by
      have h1 : pre ++ encStrings (r :: rs) ++ suf =
          (pre ++ encU16 r.1 ++ encU16 r.2.length) ++ (r.2 ++ (encStrings rs ++ suf)) := by
        simp [encStrings_cons, encString, List.append_assoc]
      have := readBytes_append (pre ++ encU16 r.1 ++ encU16 r.2.length)
        (r.2 ++ (encStrings rs ++ suf)) 0 r.2.length
      rw [h1]
      simp only [List.length_append, encU16, List.length_cons, List.length_nil, Nat.add_zero,
        Nat.zero_add] at this
      simp only [encU16]
      rw [this]
      exact readBytes_text r.2 _ hr3
    rw [lookupString_cons]
    simp only [List.length_cons, GetStringTableEntry_.scan, hid, hlen, Option.bind_eq_bind,
      Option.some_bind, sizeofXdbfStringTableEntry]
    by_cases hm : r.1 = string_id
    · simp only [hm, if_true]
      exact htxt
    · simp only [hm, if_false]
      have h2 : pre ++ encStrings (r :: rs) ++ suf = (pre ++ encString r) ++ encStrings rs ++ suf := by
        simp [encStrings_cons, List.append_assoc]
      have h3 : pre.length + 4 + r.2.length = (pre ++ encString r).length := by
        rw [List.length_append, encString_length]
        omega
      rw [h2, h3]
      exact ih (pre ++ encString r) (fun x hx => hrec x (List.mem_cons_of_mem _ hx))

/-- C7. String resolution equals first-match lookup over the encoded records: for
records with 16-bit ids and texts of fewer than 2^16 bytes, fewer than 2^16 of them,
serialised contiguously as (id, length, text bytes) anywhere in the buffer, resolving a
16-bit string id returns the text bytes of the first record in storage order carrying
that id, and the empty string when no record carries it. -/
theorem GetStringTableEntry_first_match (pre suf : Bytes) (rs : List (Nat × Bytes))
    (string_id : Nat) (hid : string_id < 2 ^ 16) (hcount : rs.length < 2 ^ 16)
    (hrec : ∀ r ∈ rs, r.1 < 2 ^ 16 ∧ r.2.length < 2 ^ 16 ∧ ∀ b ∈ r.2, b < 256) :
    GetStringTableEntry_ (pre ++ encStrings rs ++ suf) pre.length string_id rs.length =
      some (lookupString rs string_id) := by
  rw [GetStringTableEntry_, Nat.mod_eq_of_lt hid, Nat.mod_eq_of_lt hcount]
  exact string_scan_spec suf string_id rs pre hrec

/-- C7 on the spec's table: `{(1,"Hello"),(2,"World")}` gives 1 -> "Hello",
2 -> "World", 3 -> "". -/
theorem GetStringTableEntry_first_match_witness :
    GetStringTableEntry_ (encStrings exStrings) 0 1 2 = some [72, 101, 108, 108, 111] ∧
    GetStringTableEntry_ (encStrings exStrings) 0 2 2 = some [87, 111, 114, 108, 100] ∧
    GetStringTableEntry_ (encStrings exStrings) 0 3 2 = some [] :=
  ⟨GetStringTableEntry_first_match [] [] exStrings 1 (by decide) (by decide) (by decide),
   GetStringTableEntry_first_match [] [] exStrings 2 (by decide) (by decide) (by decide),
   GetStringTableEntry_first_match [] [] exStrings 3 (by decide) (by decide) (by decide)⟩

/-! ## Resolution inside a string-table Block -/

theorem encU16_length (v : Nat) : (encU16 v).length = 2 := rfl

theorem encU32_length (v : Nat) : (encU32 v).length = 4 := rfl

theorem readU32_encU32 (v : Nat) (rest : Bytes) :
    readU32 (encU32 v ++ rest) 0 = some (v % 4294967296) := by
  have h0 : readU16 (encU32 v ++ rest) 0 = some (v % 65536 % 65536) := by
    simp only [encU32, List.append_assoc]
    exact readU16_encU16 _ _
  have h2 : readU16 (encU32 v ++ rest) (0 + 2) = some (v / 65536 % 65536 % 65536) := by
    have := readU16_append (encU16 (v % 65536)) (encU16 (v / 65536 % 65536) ++ rest) 0
    simp only [encU16_length, Nat.add_zero] at this
    simp only [encU32, List.append_assoc, Nat.zero_add]
    rw [this]
    exact readU16_encU16 _ _
  simp only [readU32, h0, h2, Option.bind_eq_bind, Option.some_bind, Option.pure_def,
    Option.some.injEq]
  omega

theorem table_count {mem pre suf : Bytes} {magic version : Nat} {rs : List (Nat × Bytes)}
    (hmem : mem = pre ++ (encXstrHeader magic version rs.length ++ encStrings rs) ++ suf)
    (hcount : rs.length < 2 ^ 16) :
    readU32 mem (pre.length + 8) = some rs.length := by
  have h1 : mem = (pre ++ encU32 magic ++ encU32 version) ++
      (encU32 rs.length ++ (encStrings rs ++ suf)) := by
    rw [hmem]
    simp [encXstrHeader, List.append_assoc]
  have := readU32_append (pre ++ encU32 magic ++ encU32 version)
    (encU32 rs.length ++ (encStrings rs ++ suf)) 0
  have hl : (pre ++ encU32 magic ++ encU32 version).length = pre.length + 8 := by
    simp [encU32_length, Nat.add_assoc]
  rw [hl, Nat.add_zero] at this
  rw [h1, this, readU32_encU32, Nat.mod_eq_of_lt (by omega)]

theorem table_lookup {mem pre suf : Bytes} {magic version : Nat} {rs : List (Nat × Bytes)}
    (hmem : mem = pre ++ (encXstrHeader magic version rs.length ++ encStrings rs) ++ suf)
    (hcount : rs.length < 2 ^ 16) (hrs : StringsOk rs) (string_id : Nat)
    (hid : string_id < 2 ^ 16) :
    GetStringTableEntry_ mem (pre.length + sizeofXdbfXstrHeader) string_id rs.length =
      some (lookupString rs string_id) := by
  have h1 : mem = (pre ++ encXstrHeader magic version rs.length) ++ encStrings rs ++ suf := by
    rw [hmem]
    simp [List.append_assoc]
  have h2 : pre.length + sizeofXdbfXstrHeader =
      (pre ++ encXstrHeader magic version rs.length).length := by
    simp [encXstrHeader, encU32_length, sizeofXdbfXstrHeader]
  rw [h1, h2, GetStringTableEntry_, Nat.mod_eq_of_lt hid, Nat.mod_eq_of_lt hcount]
  exact string_scan_spec suf string_id rs _ hrs

theorem inBlock_spec {mem pre suf : Bytes} {magic version : Nat} {rs : List (Nat × Bytes)}
    (hmem : mem = pre ++ (encXstrHeader magic version rs.length ++ encStrings rs) ++ suf)
    (hcount : rs.length < 2 ^ 16) (hrs : StringsOk rs) (string_id : Nat)
    (hid : string_id < 2 ^ 16) :
    XdbfWrapper.GetStringTableEntry.inBlock mem pre.length string_id =
      some (lookupString rs string_id) := by
  simp only [XdbfWrapper.GetStringTableEntry.inBlock, table_count hmem hcount,
    Option.bind_eq_bind, Option.some_bind]
  exact table_lookup hmem hcount hrs string_id hid

theorem GetStringTableEntry_of_block {w : XdbfWrapper} {locale b s : Nat}
    (h : w.GetEntry .kStringTable (locale % 2 ^ 32) = some { buffer := some b, size := s })
    (string_id : Nat) :
    w.GetStringTableEntry locale string_id =
      XdbfWrapper.GetStringTableEntry.inBlock w.mem b string_id := by
  unfold XdbfWrapper.GetStringTableEntry XdbfWrapper.GetStringTableEntry.inBlock
  rw [h]
  rfl

/-- C8, as stated, fails: in `exShortBlock` the string table of locale 1 is a Block of
declared size 12, the block header alone; resolving id 7 reads the record at
block-relative offsets 12..17 and returns "AB" instead of the empty string; on the
buffer cut off at the end of the Block the same resolution has no result. -/
theorem record_past_block_counterexample :
    XdbfWrapper.new 8 (some exShortBlock) 52 = some exShortBlockWrapper ∧
    exShortBlockWrapper.GetEntry .kStringTable 1 = some { buffer := some 34, size := 12 } ∧
    exShortBlockWrapper.GetStringTableEntry 1 7 = some [65, 66] ∧
    XdbfWrapper.GetStringTableEntry.inBlock (exShortBlock.take (34 + 12)) 34 7 = none := by
  decide

/-- C8, amended. Resolution does not consult the Block's declared size `s`.  When the
Block holds its header followed by the `string_count` declared records (fewer than
2^16, with 16-bit ids and lengths) serialised contiguously, and these fit in `s`,
resolution of every 16-bit string id reads no byte at block-relative offset `>= s`
(it gives the same result on the buffer cut off at the end of the Block) and returns
the first matching record's text, the empty string when there is none. -/
theorem string_resolution_within_block (w : XdbfWrapper) (locale string_id s : Nat)
    (pre suf : Bytes) (magic version : Nat) (rs : List (Nat × Bytes))
    (hblock : w.GetEntry .kStringTable (locale % 2 ^ 32) =
      some { buffer := some pre.length, size := s })
    (hmem : w.mem = pre ++ (encXstrHeader magic version rs.length ++ encStrings rs) ++ suf)
    (hfit : sizeofXdbfXstrHeader + (encStrings rs).length ≤ s)
    (hid : string_id < 2 ^ 16) (hcount : rs.length < 2 ^ 16) (hrs : StringsOk rs) :
    w.GetStringTableEntry locale string_id = some (lookupString rs string_id) ∧
    XdbfWrapper.GetStringTableEntry.inBlock (w.mem.take (pre.length + s)) pre.length string_id =
      some (lookupString rs string_id) := by
  refine ⟨?_, ?_⟩
  · rw [GetStringTableEntry_of_block hblock]
    exact inBlock_spec hmem hcount hrs string_id hid
  · have hlen : (encXstrHeader magic version rs.length ++ encStrings rs).length ≤ s := by
      simp only [List.length_append, encXstrHeader, encU32_length]
      simp only [sizeofXdbfXstrHeader] at hfit
      omega
    have htake : w.mem.take (pre.length + s) =
        pre ++ (encXstrHeader magic version rs.length ++ encStrings rs) ++
          suf.take (s - (encXstrHeader magic version rs.length ++ encStrings rs).length) := by
      rw [hmem, List.append_assoc, List.take_append, List.take_append_eq_append_take,
        List.take_of_length_le hlen]
      simp [List.append_assoc]
    exact inBlock_spec htake hcount hrs string_id hid

/-- C8, amended, on the container `exDirectory`, whose string table of locale 1
occupies bytes 96..125. -/
theorem string_resolution_within_block_witness :
    exDirectoryWrapper.GetStringTableEntry 1 2 = some (lookupString exStrings 2) ∧
    XdbfWrapper.GetStringTableEntry.inBlock
        (exDirectoryWrapper.mem.take ((exDirectory.take 96).length + 30))
        (exDirectory.take 96).length 2 =
      some (lookupString exStrings 2) :=
  string_resolution_within_block exDirectoryWrapper 1 2 30 (exDirectory.take 96)
    [1, 2, 3, 4, 5, 6] kXdbfMagicXstr 1 exStrings (by decide) (by decide) (by decide)
    (by decide) (by decide) (by decide)

/-- C9 at the failing input `exBadXstr`: the string table of locale 1 has magic 0 and
version 2, and `GetStringTableEntry` still resolves id 7 to "AB". -/
theorem xstr_magic_not_checked :
    XdbfWrapper.new 8 (some exBadXstr) 52 = some exBadXstrWrapper ∧
    exBadXstrWrapper.is_valid = true ∧
    exBadXstrWrapper.GetEntry .kStringTable 1 = some { buffer := some 34, size := 18 } ∧
    readU32 exBadXstr 34 = some 0 ∧ readU32 exBadXstr 38 = some 2 ∧
    exBadXstrWrapper.GetStringTableEntry 1 7 = some [65, 66] := by
  decide

/-! ## Achievements -/

theorem fill_spec {w : XdbfWrapper} {pre suf : Bytes} {magic version : Nat}
    {rs : List (Nat × Bytes)}
    (hmem : w.mem = pre ++ (encXstrHeader magic version rs.length ++ encStrings rs) ++ suf)
    (hcount : rs.length < 2 ^ 16) (hrs : StringsOk rs) :
    ∀ (n e : Nat) (es : List XbdfAchievement), e + sizeofXbdfXachEntry * n ≤ w.mem.length →
      XdbfWrapper.GetAchievements.fill w pre.length (pre.length + sizeofXdbfXstrHeader) n e es =
        some (es ++ achRecords w.mem rs n e) := by
  intro n
  induction n with
  | zero => intro e es _; simp [XdbfWrapper.GetAchievements.fill, achRecords]
  | succ n ih =>
    intro e es hfit
    simp only [sizeofXbdfXachEntry] at hfit
    obtain ⟨a, ha⟩ := readU32_of_le w.mem e (by omega)
    obtain ⟨b, hb⟩ := readU32_of_le w.mem (e + 4) (by omega)
    obtain ⟨c, hc⟩ := readU32_of_le w.mem (e + 8) (by omega)
    obtain ⟨d, hd⟩ := readU32_of_le w.mem (e + 12) (by omega)
    obtain ⟨l, hl⟩ := readU16_of_le w.mem (e + 16) (by omega)
    obtain ⟨l2, hl2⟩ := readU16_of_le w.mem (e + 18) (by omega)
    obtain ⟨l3, hl3⟩ := readU16_of_le w.mem (e + 20) (by omega)
    have t1 := table_lookup hmem hcount hrs l (by simpa using readU16_lt hl)
    have t2 := table_lookup hmem hcount hrs l2 (by simpa using readU16_lt hl2)
    have t3 := table_lookup hmem hcount hrs l3 (by simpa using readU16_lt hl3)
    have hih := ih (e + sizeofXbdfXachEntry)
      (es ++ [{ id := a, image_id := b, gamerscore := c, flags := d,
                label := lookupString rs l, description := lookupString rs l2,
                unachieved_desc := lookupString rs l3 }])
      (by simp only [sizeofXbdfXachEntry]; omega)
    simp only [XdbfWrapper.GetAchievements.fill, ha, hb, hc, hd, hl, hl2, hl3,
      table_count hmem hcount, t1, t2, t3, Option.bind_eq_bind, Option.some_bind, hih,
      achRecords, achRecord, Option.getD_some, List.append_assoc, List.singleton_append]

theorem GetAchievements_of_blocks {w : XdbfWrapper} {locale a sa s ss count : Nat}
    (hx : w.GetEntry .kMetadata kXdbfIdXach = some { buffer := some a, size := sa })
    (hl : w.GetEntry .kStringTable (locale % 2 ^ 32) = some { buffer := some s, size := ss })
    (hcnt : readU32 w.mem (a + 8) = some count) (entries : Option (List XbdfAchievement)) :
    w.GetAchievements locale entries =
      match entries with
      | none => some (count, none)
      | some es =>
        (XdbfWrapper.GetAchievements.fill w s (s + sizeofXdbfXstrHeader) count
          (a + sizeofXbdfXachHeader) es).bind fun es => some (count, some es) := by
  unfold XdbfWrapper.GetAchievements
  rw [hx]
  simp only [Option.bind_eq_bind, Option.some_bind]
  rw [hl]
  simp only [Option.some_bind, hcnt]

/-- C10, as stated, fails: `exAchNoStrings` has a live Metadata entry 'XACH' whose block
declares two records and no string table for locale 1; `GetAchievements` returns 0. -/
theorem achievement_count_counterexample :
    XdbfWrapper.new 8 (some exAchNoStrings) 46 = some exAchNoStringsWrapper ∧
    exAchNoStringsWrapper.GetEntry .kMetadata kXdbfIdXach =
      some { buffer := some 34, size := 12 } ∧
    readU32 exAchNoStrings (34 + 8) = some 2 ∧
    exAchNoStringsWrapper.GetEntry .kStringTable 1 = some XdbfBlock.empty ∧
    exAchNoStringsWrapper.GetAchievements 1 none = some (0, none) ∧
    exAchNoStringsWrapper.GetAchievements 1 (some []) = some (0, some []) := by
  decide

/-- C10, amended. `GetAchievements` returns 0 (and leaves the destination list as it
was) when no live Metadata entry with id 'XACH' exists, and also when the container has
no live string table for the requested locale.  When both exist it returns exactly the
count declared in the achievements block's header: without a destination list always,
and with one whenever the declared records lie in the buffer and the string table
holds its declared records (fewer than 2^16) serialised contiguously. -/
theorem GetAchievements_count (w : XdbfWrapper) (locale : Nat) :
    (w.GetEntry .kMetadata kXdbfIdXach = some XdbfBlock.empty →
      ∀ entries, w.GetAchievements locale entries = some (0, entries)) ∧
    (∀ xach, w.GetEntry .kMetadata kXdbfIdXach = some xach →
      w.GetEntry .kStringTable (locale % 2 ^ 32) = some XdbfBlock.empty →
      ∀ entries, w.GetAchievements locale entries = some (0, entries)) ∧
    (∀ a sa s ss count,
      w.GetEntry .kMetadata kXdbfIdXach = some { buffer := some a, size := sa } →
      w.GetEntry .kStringTable (locale % 2 ^ 32) = some { buffer := some s, size := ss } →
      readU32 w.mem (a + 8) = some count →
      w.GetAchievements locale none = some (count, none) ∧
      ∀ (pre suf : Bytes) (magic version : Nat) (rs : List (Nat × Bytes))
        (es : List XbdfAchievement),
        w.mem = pre ++ (encXstrHeader magic version rs.length ++ encStrings rs) ++ suf →
        pre.length = s → rs.length < 2 ^ 16 → StringsOk rs →
        a + sizeofXbdfXachHeader + sizeofXbdfXachEntry * count ≤ w.mem.length →
        ∃ es', w.GetAchievements locale (some es) = some (count, some es')) := by
  refine ⟨?_, ?_, ?_⟩
  · intro h entries
    unfold XdbfWrapper.GetAchievements
    rw [h]
    rfl
  · intro xach hx hl entries
    unfold XdbfWrapper.GetAchievements
    rw [hx]
    simp only [Option.bind_eq_bind, Option.some_bind]
    rw [hl]
    cases xach.buffer <;> rfl
  · intro a sa s ss count hx hl hcnt
    refine ⟨GetAchievements_of_blocks hx hl hcnt none, ?_⟩
    intro pre suf magic version rs es hmem hpre hcount hrs hfit
    subst hpre
    refine ⟨es ++ achRecords w.mem rs count (a + sizeofXbdfXachHeader), ?_⟩
    rw [GetAchievements_of_blocks hx hl hcnt (some es)]
    simp only [fill_spec hmem hcount hrs count (a + sizeofXbdfXachHeader) es hfit,
      Option.some_bind]

/-- C10, amended, on the container `exAchievements`: achievements block at byte 52
declaring one record, string table of locale 1 at byte 86. -/
theorem GetAchievements_count_witness :
    exAchievementsWrapper.GetAchievements 1 none = some (1, none) ∧
    ∃ es', exAchievementsWrapper.GetAchievements 1 (some []) = some (1, some es') :=
  ⟨((GetAchievements_count exAchievementsWrapper 1).2.2 52 34 86 30 1
      (by decide) (by decide) (by decide)).1,
   ((GetAchievements_count exAchievementsWrapper 1).2.2 52 34 86 30 1
      (by decide) (by decide) (by decide)).2 (exAchievements.take 86) [] kXdbfMagicXstr 1
      exStrings [] (by decide) (by decide) (by decide) (by decide) (by decide)⟩

/-! ## Achievement join -/

/-- C12 at the failing input `exBadXach`: the achievements block has magic 0 and
version 2, and `GetAchievements` still returns its declared count 1 and appends the
record. -/
theorem xach_magic_not_checked :
    XdbfWrapper.new 8 (some exBadXach) 116 = some exBadXachWrapper ∧
    exBadXachWrapper.is_valid = true ∧
    exBadXachWrapper.GetEntry .kMetadata kXdbfIdXach = some { buffer := some 52, size := 34 } ∧
    readU32 exBadXach 52 = some 0 ∧ readU32 exBadXach 56 = some 2 ∧
    exBadXachWrapper.GetAchievements 1 none = some (1, none) ∧
    exBadXachWrapper.GetAchievements 1 (some []) =
      some (1, some [{ id := 5, image_id := 6, gamerscore := 10, flags := 0,
                       label := [72, 101, 108, 108, 111],
                       description := [87, 111, 114, 108, 100],
                       unachieved_desc := [] }]) := by
  decide

/-! ## `XdbfGameData` -/

theorem GetEntry_hit {w : XdbfWrapper} {sec : XdbfSection} {id used k c : Nat} {e : XbdfEntry}
    (hused : w.entry_used = some used) (hid : id < 2 ^ 64) (hk : k < used)
    (he : w.entryAt k = some e) (hkey : e.hasKey sec id)
    (hfirst : ∀ j, j < k → ∀ e', w.entryAt j = some e' → ¬ e'.hasKey sec id)
    (hc : w.content_offset_ = some c) :
    w.GetEntry sec id = some { buffer := some (c + e.offset), size := e.size } := by
  rw [GetEntry_eq_scan hused, Nat.mod_eq_of_lt hid]
  exact scan_hit he hkey.1 hkey.2 hc used 0 (Nat.zero_le _) (by omega)
    (fun j _ hjk e' he' => hfirst j hjk e' he')

theorem GetEntry_miss {w : XdbfWrapper} {sec : XdbfSection} {id used : Nat}
    (hused : w.entry_used = some used) (hid : id < 2 ^ 64)
    (hnone : ∀ j, j < used → ∃ e, w.entryAt j = some e ∧ ¬ e.hasKey sec id) :
    w.GetEntry sec id = some XdbfBlock.empty := by
  rw [GetEntry_eq_scan hused, Nat.mod_eq_of_lt hid]
  exact scan_miss used 0 (fun j _ hj => hnone j (by omega))

theorem default_language_of_miss {w : XdbfWrapper}
    (h : w.GetEntry .kMetadata kXdbfIdXstc = some XdbfBlock.empty) :
    XdbfGameData.default_language w = some kEnglish := by
  unfold XdbfGameData.default_language
  rw [h]
  rfl

theorem default_language_of_block {w : XdbfWrapper} {p s : Nat}
    (h : w.GetEntry .kMetadata kXdbfIdXstc = some { buffer := some p, size := s }) :
    XdbfGameData.default_language w = readU32 w.mem (p + 4) := by
  unfold XdbfGameData.default_language
  rw [h]
  rfl

/-- C14. On a valid container `default_language()` returns the fixed fallback locale
English when none of the first `used_slot_count` directory entries carries the key
(Metadata, 'XSTC'), and otherwise the 32-bit `default_language` field of the block of
the first entry that does. -/
theorem default_language_spec (fl : Nat) (data : Option Bytes) (data_size : Nat)
    (w : XdbfWrapper) (used : Nat)
    (hw : XdbfWrapper.new fl data data_size = some w) (hv : w.is_valid = true)
    (hused : w.entry_used = some used) :
    ((∀ j, j < used → ∃ e, w.entryAt j = some e ∧ ¬ e.hasKey .kMetadata kXdbfIdXstc) →
      XdbfGameData.default_language w = some kEnglish) ∧
    (∀ (k : Nat) (e : XbdfEntry), k < used → w.entryAt k = some e →
      e.hasKey .kMetadata kXdbfIdXstc →
      (∀ j, j < k → ∀ e', w.entryAt j = some e' → ¬ e'.hasKey .kMetadata kXdbfIdXstc) →
      ∃ c, w.content_offset_ = some c ∧
        ∀ lang, readU32 w.mem (c + e.offset + 4) = some lang →
          XdbfGameData.default_language w = some lang) := by
  refine ⟨?_, ?_⟩
  · intro hnone
    exact default_language_of_miss (GetEntry_miss hused (by decide) hnone)
  · intro k e hk he hkey hfirst
    obtain ⟨buf, ec, fc, _, _, _, _, _, rfl⟩ := new_valid hw hv
    refine ⟨_, rfl, ?_⟩
    intro lang hlang
    rw [default_language_of_block (GetEntry_hit hused (by decide) hk he hkey hfirst rfl)]
    exact hlang

/-- C14 on `exDirectory`, which has no locale block, and on `exTitle`, whose locale
block declares language 2. -/
theorem default_language_spec_witness :
    XdbfGameData.default_language exDirectoryWrapper = some kEnglish ∧
    XdbfGameData.default_language exTitleWrapper = some 2 := by
  refine ⟨(default_language_spec 8 (some exDirectory) 132 exDirectoryWrapper 3 (by decide)
    (by decide) (by decide)).1 ?_, ?_⟩
  · intro j hj
    interval_cases j
    · exact ⟨⟨2, 1, 0, 5⟩, by decide, by decide⟩
    · exact ⟨⟨3, 2, 5, 7⟩, by decide, by decide⟩
    · exact ⟨⟨3, 1, 0, 30⟩, by decide, by decide⟩
  · obtain ⟨c, hc, h⟩ :=
      (default_language_spec 8 (some exTitle) 82 exTitleWrapper 2 (by decide) (by decide)
        (by decide)).2 0 ⟨1, kXdbfIdXstc, 0, 8⟩ (by decide) (by decide) (by decide)
        (by intro j hj; omega)
    have hc' : c = 52 := (Option.some.inj hc).symm
    subst hc'
    exact h 2 (by decide)

theorem mulSizeT_entry {ec : Nat} (h : ec < 2 ^ 32) :
    mulSizeT sizeofXbdfEntry ec = sizeofXbdfEntry * ec := by
  unfold mulSizeT
  apply Nat.mod_eq_of_lt
  simp only [sizeofXbdfEntry]
  omega

theorem mulSizeT_fileLoc {fl fc : Nat} (hfl : fl ≤ 2 ^ 32) (h : fc < 2 ^ 32) :
    mulSizeT fl fc = fl * fc := by
  unfold mulSizeT
  apply Nat.mod_eq_of_lt
  have h1 : fl * fc ≤ 2 ^ 32 * fc := Nat.mul_le_mul_right _ hfl
  have h2 : 2 ^ 32 * fc < 2 ^ 32 * 2 ^ 32 := Nat.mul_lt_mul_of_pos_left h (by norm_num)
  calc fl * fc ≤ 2 ^ 32 * fc := h1
    _ < 2 ^ 32 * 2 ^ 32 := h2
    _ = 2 ^ 64 := by norm_num

theorem content_offset_of_valid {fl : Nat} {data : Option Bytes} {n : Nat} {w : XdbfWrapper}
    (hw : XdbfWrapper.new fl data n = some w) (hv : w.is_valid = true) (hfl : fl ≤ 2 ^ 32) :
    ∃ buf ec fc, data = some buf ∧ w.mem = buf ∧ readU32 buf 4 = some ec ∧
      readU32 buf 12 = some fc ∧
      w.files_ = some (sizeofXbdfHeader + sizeofXbdfEntry * ec) ∧
      w.content_offset_ = some (sizeofXbdfHeader + sizeofXbdfEntry * ec + fl * fc) := by
  obtain ⟨buf, ec, fc, hd, _, _, hec, hfc, rfl⟩ := new_valid hw hv
  refine ⟨buf, ec, fc, hd, rfl, hec, hfc, ?_, ?_⟩
  · simp only [mulSizeT_entry (by simpa using readU32_lt hec)]
  · simp only [mulSizeT_entry (by simpa using readU32_lt hec),
      mulSizeT_fileLoc hfl (by simpa using readU32_lt hfc)]

/-- C15. On a valid container the content region starts at byte offset
header size + entry size * `slot_count` + free-record size * `free_slot_count`, for
all 32-bit `slot_count` and `free_slot_count`, the products taken in 64-bit `size_t`
without wrap-around; any other valid container with the same two counts has the same
content start, whatever its `used_slot_count`, directory and free list. -/
theorem content_offset_spec (fl : Nat) (data : Option Bytes) (data_size : Nat)
    (w : XdbfWrapper) (hw : XdbfWrapper.new fl data data_size = some w)
    (hv : w.is_valid = true) (hfl : fl ≤ 2 ^ 32) :
    ∃ buf slot_count free_count, data = some buf ∧ readU32 buf 4 = some slot_count ∧
      readU32 buf 12 = some free_count ∧
      w.content_offset_ =
        some (sizeofXbdfHeader + sizeofXbdfEntry * slot_count + fl * free_count) ∧
      ∀ (buf' : Bytes) (n' : Nat) (w' : XdbfWrapper),
        XdbfWrapper.new fl (some buf') n' = some w' → w'.is_valid = true →
        readU32 buf' 4 = some slot_count → readU32 buf' 12 = some free_count →
        w'.content_offset_ = w.content_offset_ := by
  obtain ⟨buf, ec, fc, hd, _, hec, hfc, _, hc⟩ := content_offset_of_valid hw hv hfl
  refine ⟨buf, ec, fc, hd, hec, hfc, hc, ?_⟩
  intro buf' n' w' hw' hv' hec' hfc'
  obtain ⟨buf2, ec2, fc2, hd2, _, hec2, hfc2, _, hc2⟩ := content_offset_of_valid hw' hv' hfl
  cases hd2
  rw [hec'] at hec2
  rw [hfc'] at hfc2
  cases hec2
  cases hfc2
  rw [hc, hc2]

/-- C15 on `exDirectory` (4 slots, 1 free-list record of 8 bytes, 3 used slots) and
`exDirectoryAlt` (same two counts, no used slot, no directory): content starts at
byte 96 in both. -/
theorem content_offset_spec_witness :
    exDirectoryWrapper.content_offset_ = some (sizeofXbdfHeader + sizeofXbdfEntry * 4 + 8 * 1) ∧
    exDirectoryAltWrapper.content_offset_ = exDirectoryWrapper.content_offset_ := by
  obtain ⟨buf, sc, fc, hd, hsc, hfc, hc, hind⟩ :=
    content_offset_spec 8 (some exDirectory) 132 exDirectoryWrapper (by decide) (by decide)
      (by decide)
  cases hd
  have hsc' : readU32 exDirectory 4 = some 4 := by decide
  have hfc' : readU32 exDirectory 12 = some 1 := by decide
  rw [hsc'] at hsc
  rw [hfc'] at hfc
  cases hsc
  cases hfc
  exact ⟨hc, hind exDirectoryAlt 17 exDirectoryAltWrapper (by decide) (by decide) (by decide)
    (by decide)⟩

/-- C16. On a valid container `icon()` is `GetEntry(Image, 0x8000)`: the Block of the
first live entry with section Image and id 0x8000, and the empty Block when no live
entry has both, whatever ids the live StringTable and Metadata entries carry. -/
theorem icon_spec (fl : Nat) (data : Option Bytes) (data_size : Nat)
    (w : XdbfWrapper) (used : Nat)
    (hw : XdbfWrapper.new fl data data_size = some w) (hv : w.is_valid = true)
    (hused : w.entry_used = some used) :
    XdbfGameData.icon w = w.GetEntry .kImage kXdbfIdTitle ∧
    (∀ (k : Nat) (e : XbdfEntry), k < used → w.entryAt k = some e →
      e.sect = XdbfSection.kImage.toU16 → e.id = kXdbfIdTitle →
      (∀ j, j < k → ∀ e', w.entryAt j = some e' →
        ¬ (e'.sect = XdbfSection.kImage.toU16 ∧ e'.id = kXdbfIdTitle)) →
      ∃ c, w.content_offset_ = some c ∧
        XdbfGameData.icon w = some { buffer := some (c + e.offset), size := e.size }) ∧
    ((∀ j, j < used → ∃ e, w.entryAt j = some e ∧
        (e.sect ≠ XdbfSection.kImage.toU16 ∨ e.id ≠ kXdbfIdTitle)) →
      XdbfGameData.icon w = some { buffer := none, size := 0 }) := by
  refine ⟨rfl, ?_, ?_⟩
  · intro k e hk he hs hid hfirst
    obtain ⟨buf, ec, fc, _, _, _, _, _, rfl⟩ := new_valid hw hv
    exact ⟨_, rfl, GetEntry_hit hused (by decide) hk he ⟨hs, hid⟩ hfirst rfl⟩
  · intro hnone
    refine GetEntry_miss hused (by decide) ?_
    intro j hj
    obtain ⟨e, he, hne⟩ := hnone j hj
    refine ⟨e, he, ?_⟩
    rintro ⟨hs, hid⟩
    rcases hne with h | h
    · exact h hs
    · exact h hid

/-- C16 on `exIcon`, where the Image entry with id 0x8000 comes after a StringTable and
a Metadata entry with that id, and on `exIconDead`, where it is not live. -/
theorem icon_spec_witness :
    (∃ c, exIconWrapper.content_offset_ = some c ∧
      XdbfGameData.icon exIconWrapper =
        some { buffer := some (c + (⟨2, 0x8000, 8, 4⟩ : XbdfEntry).offset),
               size := (⟨2, 0x8000, 8, 4⟩ : XbdfEntry).size }) ∧
    XdbfGameData.icon exIconDeadWrapper = some { buffer := none, size := 0 } :=
  ⟨(icon_spec 8 (some exIcon) 82 exIconWrapper 3 (by decide) (by decide) (by decide)).2.1 2
      ⟨2, 0x8000, 8, 4⟩ (by decide) (by decide) (by decide) (by decide)
      (by
        intro j hj e' he'
        interval_cases j
        · have h0 : exIconWrapper.entryAt 0 = some ⟨3, 0x8000, 0, 4⟩ := by decide
          rw [h0] at he'
          cases he'
          decide
        · have h1 : exIconWrapper.entryAt 1 = some ⟨1, 0x8000, 4, 4⟩ := by decide
          rw [h1] at he'
          cases he'
          decide),
   (icon_spec 8 (some exIconDead) 82 exIconDeadWrapper 2 (by decide) (by decide)
      (by decide)).2.2
      (by
        intro j hj
        interval_cases j
        · exact ⟨⟨3, 0x8000, 0, 4⟩, by decide, by decide⟩
        · exact ⟨⟨1, 0x8000, 4, 4⟩, by decide, by decide⟩)⟩

/-! ## Free list -/

theorem readU8_congr {b1 b2 : Bytes} {p : Nat} (h : b1[p]? = b2[p]?) :
    readU8 b1 p = readU8 b2 p := by
  simp only [readU8, h]

theorem readU16_agree {b1 b2 : Bytes} {f p : Nat} (h : ∀ i, i < f → b1[i]? = b2[i]?)
    (hp : p + 2 ≤ f) : readU16 b1 p = readU16 b2 p := by
  simp only [readU16, readU8_congr (h p (by omega)), readU8_congr (h (p + 1) (by omega))]

theorem readU32_agree {b1 b2 : Bytes} {f p : Nat} (h : ∀ i, i < f → b1[i]? = b2[i]?)
    (hp : p + 4 ≤ f) : readU32 b1 p = readU32 b2 p := by
  simp only [readU32, readU16_agree h (show p + 2 ≤ f by omega),
    readU16_agree h (show p + 2 + 2 ≤ f by omega)]

theorem readU64_agree {b1 b2 : Bytes} {f p : Nat} (h : ∀ i, i < f → b1[i]? = b2[i]?)
    (hp : p + 8 ≤ f) : readU64 b1 p = readU64 b2 p := by
  simp only [readU64, readU32_agree h (show p + 4 ≤ f by omega),
    readU32_agree h (show p + 4 + 4 ≤ f by omega)]

theorem scan_agree {w1 w2 : XdbfWrapper} {ec : Nat} {sec id : Nat}
    (he1 : w1.entries_ = some sizeofXbdfHeader) (he2 : w2.entries_ = some sizeofXbdfHeader)
    (hc : w1.content_offset_ = w2.content_offset_)
    (h : ∀ i, i < sizeofXbdfHeader + sizeofXbdfEntry * ec → w1.mem[i]? = w2.mem[i]?) :
    ∀ (n i : Nat), i + n ≤ ec →
      XdbfWrapper.GetEntry.scan w1 sec id n i = XdbfWrapper.GetEntry.scan w2 sec id n i := by
  intro n
  induction n with
  | zero => intro i _; rfl
  | succ n ih =>
    intro i hi
    have hle : sizeofXbdfEntry * (i + 1) ≤ sizeofXbdfEntry * ec :=
      Nat.mul_le_mul_left _ (by omega)
    have hb : sizeofXbdfHeader + sizeofXbdfEntry * i + 18 ≤
        sizeofXbdfHeader + sizeofXbdfEntry * ec := by
      simp only [sizeofXbdfEntry] at hle ⊢
      omega
    have e1 := readU16_agree h (p := sizeofXbdfHeader + sizeofXbdfEntry * i) (by omega)
    have e2 := readU64_agree h (p := sizeofXbdfHeader + sizeofXbdfEntry * i + 2) (by omega)
    have e3 := readU32_agree h (p := sizeofXbdfHeader + sizeofXbdfEntry * i + 10) (by omega)
    have e4 := readU32_agree h (p := sizeofXbdfHeader + sizeofXbdfEntry * i + 14) (by omega)
    simp only [XdbfWrapper.GetEntry.scan, he1, he2, Option.bind_eq_bind, Option.some_bind,
      e1, e2, e3, e4, hc, ih (i + 1) (by omega)]

/-- C17, as stated, fails: `exFreeA` and `exFreeB` have the same length and a valid
header, and differ only inside the free-list region (bytes 16..39), yet
`GetEntry(Image, 0x8000)` finds an entry in the first and nothing in the second: the
header declares one used slot and no directory slot, so the used slot is read from the
free list. -/
theorem free_list_read_counterexample :
    XdbfWrapper.new 8 (some exFreeA) exFreeA.length = some exFreeAWrapper ∧
    XdbfWrapper.new 8 (some exFreeB) exFreeB.length = some exFreeBWrapper ∧
    exFreeAWrapper.is_valid = true ∧ exFreeBWrapper.is_valid = true ∧
    exFreeA.length = exFreeB.length ∧
    exFreeAWrapper.files_ = some 16 ∧ exFreeAWrapper.content_offset_ = some 40 ∧
    exFreeBWrapper.files_ = some 16 ∧ exFreeBWrapper.content_offset_ = some 40 ∧
    (∀ i, i < 16 ∨ 40 ≤ i → exFreeA[i]? = exFreeB[i]?) ∧
    exFreeAWrapper.GetEntry .kImage kXdbfIdTitle = some { buffer := some 40, size := 5 } ∧
    exFreeBWrapper.GetEntry .kImage kXdbfIdTitle = some { buffer := none, size := 0 } := by
  refine ⟨by decide, by decide, by decide, by decide, by decide, by decide, by decide,
    by decide, by decide, ?_, by decide, by decide⟩
  intro i hi
  rcases hi with hi | hi
  · interval_cases i <;> decide
  · have h1 : exFreeA.length ≤ i := by
      have : exFreeA.length = 40 := by decide
      omega
    have h2 : exFreeB.length ≤ i := by
      have : exFreeB.length = 40 := by decide
      omega
    rw [List.getElem?_eq_none h1, List.getElem?_eq_none h2]

/-- C17, amended. For two buffers that both yield a valid container and are
byte-identical everywhere except inside the free-list region, `GetEntry` returns the
same result for every key provided `used_slot_count <= slot_count`, so that no live
directory slot lies in the free-list region. -/
theorem GetEntry_free_list_opaque (fl : Nat) (buf1 buf2 : Bytes) (w1 w2 : XdbfWrapper)
    (f c used slot_count : Nat)
    (hw1 : XdbfWrapper.new fl (some buf1) buf1.length = some w1)
    (hw2 : XdbfWrapper.new fl (some buf2) buf2.length = some w2)
    (hv1 : w1.is_valid = true) (hv2 : w2.is_valid = true)
    (hf : w1.files_ = some f) (hc : w1.content_offset_ = some c)
    (hsame : ∀ i, i < f ∨ c ≤ i → buf1[i]? = buf2[i]?)
    (hused : w1.entry_used = some used) (hcount : readU32 buf1 4 = some slot_count)
    (hle : used ≤ slot_count) (sec : XdbfSection) (id : Nat) :
    w1.GetEntry sec id = w2.GetEntry sec id := by
  obtain ⟨b1, ec1, fc1, hd1, _, _, hec1, hfc1, rfl⟩ := new_valid hw1 hv1
  obtain ⟨b2, ec2, fc2, hd2, _, _, hec2, hfc2, rfl⟩ := new_valid hw2 hv2
  cases hd1
  cases hd2
  rw [hcount] at hec1
  cases hec1
  have hf' : f = sizeofXbdfHeader + sizeofXbdfEntry * slot_count := by
    have := (Option.some.inj hf).symm
    rw [this, mulSizeT_entry (by simpa using readU32_lt hcount)]
  have hlow : ∀ i, i < sizeofXbdfHeader + sizeofXbdfEntry * slot_count →
      buf1[i]? = buf2[i]? := fun i hi => hsame i (Or.inl (by rw [hf']; exact hi))
  have hf16 : 16 ≤ sizeofXbdfHeader + sizeofXbdfEntry * slot_count := by
    simp only [sizeofXbdfHeader]
    omega
  have hec : readU32 buf1 4 = readU32 buf2 4 := readU32_agree hlow (by omega)
  have hfc : readU32 buf1 12 = readU32 buf2 12 := readU32_agree hlow (by omega)
  have hu : readU32 buf1 8 = readU32 buf2 8 := readU32_agree hlow (by omega)
  rw [hcount, hec2] at hec
  rw [hfc1, hfc2] at hfc
  cases hec
  cases hfc
  have hused1 : readU32 buf1 8 = some used := by
    simpa [XdbfWrapper.entry_used] using hused
  have hused2 : XdbfWrapper.entry_used
      { mem := buf2, data_ := some 0, data_size_ := buf2.length, header_ := some 0,
        entries_ := some sizeofXbdfHeader,
        files_ := some (sizeofXbdfHeader + mulSizeT sizeofXbdfEntry slot_count),
        content_offset_ :=
          some (sizeofXbdfHeader + mulSizeT sizeofXbdfEntry slot_count + mulSizeT fl fc1) } =
      some used := by
    simp [XdbfWrapper.entry_used, ← hu, hused1]
  rw [GetEntry_eq_scan hused, GetEntry_eq_scan hused2]
  refine @scan_agree _ _ slot_count _ _ ?_ ?_ ?_ ?_ used 0 (by omega)
  · rfl
  · rfl
  · rfl
  · exact hlow

/-- C17, amended, on `exDirectory` and a copy whose free-list record (bytes 88..95)
is overwritten. -/
theorem GetEntry_free_list_opaque_witness :
    exDirectoryWrapper.GetEntry .kStringTable 1 =
      XdbfWrapper.GetEntry
        { exDirectoryWrapper with
          mem := exDirectory.take 88 ++ [9, 9, 9, 9, 9, 9, 9, 9] ++ exDirectory.drop 96 }
        .kStringTable 1 :=
  GetEntry_free_list_opaque 8 exDirectory
    (exDirectory.take 88 ++ [9, 9, 9, 9, 9, 9, 9, 9] ++ exDirectory.drop 96)
    exDirectoryWrapper
    { exDirectoryWrapper with
      mem := exDirectory.take 88 ++ [9, 9, 9, 9, 9, 9, 9, 9] ++ exDirectory.drop 96 }
    88 96 3 4 (by decide) (by decide) (by decide) (by decide) (by decide) (by decide)
    (by
      intro i hi
      by_cases h132 : i < 132
      · rcases hi with hi | hi
        · interval_cases i <;> decide
        · interval_cases i <;> decide
      · have h1 : exDirectory.length ≤ i := by
          have : exDirectory.length = 132 := by decide
          omega
        have h2 : (exDirectory.take 88 ++ [9, 9, 9, 9, 9, 9, 9, 9] ++
            exDirectory.drop 96).length ≤ i := by
          have : (exDirectory.take 88 ++ [9, 9, 9, 9, 9, 9, 9, 9] ++
            exDirectory.drop 96).length = 132 := by decide
          omega
        rw [List.getElem?_eq_none h1, List.getElem?_eq_none h2])
    (by decide) (by decide) (by decide) .kStringTable 1

/-! ## Declared string count -/

theorem encStrings_append (xs ys : List (Nat × Bytes)) :
    encStrings (xs ++ ys) = encStrings xs ++ encStrings ys := by
  simp [encStrings]

theorem xstr_count_read (pre body : Bytes) (magic version n : Nat) (hn : n < 2 ^ 32) :
    readU32 (pre ++ (encXstrHeader magic version n ++ body)) (pre.length + 8) = some n := by
  have h1 : pre ++ (encXstrHeader magic version n ++ body) =
      (pre ++ encU32 magic ++ encU32 version) ++ (encU32 n ++ body) := by
    simp [encXstrHeader, List.append_assoc]
  have := readU32_append (pre ++ encU32 magic ++ encU32 version) (encU32 n ++ body) 0
  have hl : (pre ++ encU32 magic ++ encU32 version).length = pre.length + 8 := by
    simp [encU32_length, Nat.add_assoc]
  rw [hl, Nat.add_zero] at this
  rw [h1, this, readU32_encU32, Nat.mod_eq_of_lt (by omega)]

theorem inBlock_narrowed (pre suf : Bytes) (magic version : Nat) (rs : List (Nat × Bytes))
    (string_id : Nat) (hn : rs.length < 2 ^ 32) (hrs : StringsOk rs)
    (hid : string_id < 2 ^ 16) :
    XdbfWrapper.GetStringTableEntry.inBlock
        (pre ++ (encXstrHeader magic version rs.length ++ encStrings rs) ++ suf)
        pre.length string_id =
      some (lookupString (rs.take (rs.length % 2 ^ 16)) string_id) := by
  have hcnt : readU32 (pre ++ (encXstrHeader magic version rs.length ++ encStrings rs) ++ suf)
      (pre.length + 8) = some rs.length := by
    have := xstr_count_read pre (encStrings rs ++ suf) magic version rs.length hn
    simpa [List.append_assoc] using this
  have hm : rs.length % 2 ^ 16 ≤ rs.length := Nat.mod_le _ _
  have hsplit : pre ++ (encXstrHeader magic version rs.length ++ encStrings rs) ++ suf =
      (pre ++ encXstrHeader magic version rs.length) ++
        encStrings (rs.take (rs.length % 2 ^ 16)) ++
        (encStrings (rs.drop (rs.length % 2 ^ 16)) ++ suf) := by
    conv_lhs => rw [← List.take_append_drop (rs.length % 2 ^ 16) rs, encStrings_append]
    simp [List.append_assoc]
  have hlen : pre.length + sizeofXdbfXstrHeader =
      (pre ++ encXstrHeader magic version rs.length).length := by
    simp [encXstrHeader, encU32_length, sizeofXdbfXstrHeader]
  have htake : (rs.take (rs.length % 2 ^ 16)).length = rs.length % 2 ^ 16 := by
    rw [List.length_take]
    omega
  have hok : ∀ r ∈ rs.take (rs.length % 2 ^ 16),
      r.1 < 2 ^ 16 ∧ r.2.length < 2 ^ 16 ∧ ∀ b ∈ r.2, b < 256 :=
    fun r hr => hrs r (List.mem_of_mem_take hr)
  have hscan := string_scan_spec (encStrings (rs.drop (rs.length % 2 ^ 16)) ++ suf) string_id
    (rs.take (rs.length % 2 ^ 16)) (pre ++ encXstrHeader magic version rs.length) hok
  rw [htake, ← hsplit, ← hlen] at hscan
  simp only [XdbfWrapper.GetStringTableEntry.inBlock, hcnt, Option.bind_eq_bind,
    Option.some_bind, GetStringTableEntry_, Nat.mod_eq_of_lt hid]
  exact hscan

theorem lookupString_first (rs : List (Nat × Bytes)) :
    ∀ (k : Nat) (r : Nat × Bytes), rs[k]? = some r →
      (∀ j r', j < k → rs[j]? = some r' → r'.1 ≠ r.1) → lookupString rs r.1 = r.2 := by
  induction rs with
  | nil => intro k r h; simp at h
  | cons x xs ih =>
    intro k r h hfirst
    rw [lookupString_cons]
    cases k with
    | zero =>
      simp only [List.getElem?_cons_zero, Option.some.injEq] at h
      subst h
      simp
    | succ k =>
      simp only [List.getElem?_cons_succ] at h
      have hx : x.1 ≠ r.1 := hfirst 0 x (by omega) (by simp)
      rw [if_neg hx]
      exact ih k r h (fun j r' hj hr' => hfirst (j + 1) r' (by omega) (by simpa using hr'))

theorem xstr_count_read_start (body : Bytes) (magic version n : Nat) (hn : n < 2 ^ 32) :
    readU32 (encXstrHeader magic version n ++ body) 8 = some n := by
  have := xstr_count_read [] body magic version n hn
  simpa using this

theorem inBlock_narrowed_start (magic version : Nat) (rs : List (Nat × Bytes))
    (string_id : Nat) (hn : rs.length < 2 ^ 32) (hrs : StringsOk rs)
    (hid : string_id < 2 ^ 16) :
    XdbfWrapper.GetStringTableEntry.inBlock
        (encXstrHeader magic version rs.length ++ encStrings rs) 0 string_id =
      some (lookupString (rs.take (rs.length % 2 ^ 16)) string_id) := by
  have := inBlock_narrowed [] [] magic version rs string_id hn hrs hid
  simpa using this

theorem exWideTail_length : exWideTail.length = 65535 :=
  List.length_replicate _ _

theorem exWideRecords_length : exWideRecords.length = 65536 := by
  rw [exWideRecords, List.length_cons, exWideTail_length]

theorem exWideRecords_ok : StringsOk exWideRecords := by
  intro r hr
  rw [exWideRecords] at hr
  rcases List.mem_cons.1 hr with rfl | h
  · decide
  · have hr8 : r = (8, []) := List.eq_of_mem_replicate h
    subst hr8
    decide

/-- C18, as stated, fails: the block `exWideBlock` declares `string_count = 65536` and
holds that many records, the first being `(7, "AB")`; the count is narrowed to the
16-bit value 0, no record is scanned, and resolving id 7 gives the empty string. -/
theorem string_count_narrowed_counterexample :
    readU32 exWideBlock 8 = some 65536 ∧
    exWideRecords.length = 65536 ∧
    exWideRecords = (7, [65, 66]) :: exWideTail ∧
    XdbfWrapper.GetStringTableEntry.inBlock exWideBlock 0 7 = some [] := by
  refine ⟨?_, exWideRecords_length, rfl, ?_⟩
  · exact xstr_count_read_start (encStrings exWideRecords) kXdbfMagicXstr 1 65536 (by norm_num)
  · have h := inBlock_narrowed_start kXdbfMagicXstr 1 exWideRecords 7
      (by rw [exWideRecords_length]; norm_num) exWideRecords_ok (by norm_num)
    have h0 : 65536 % 2 ^ 16 = 0 := by norm_num
    rw [exWideRecords_length, h0, List.take_zero] at h
    exact h

/-- C18, amended. The declared 32-bit `string_count = n` is narrowed to 16 bits: for a
block holding its `n` declared records, resolving a string id returns the text of the
first record carrying it among the first `n mod 2^16` records (the empty string when
none of these does).  Hence, when `n < 65536`, for every position `k < n` whose record
id does not occur at an earlier position, resolving that id returns record `k`'s
text. -/
theorem string_records_reachable (pre suf : Bytes) (magic version : Nat)
    (rs : List (Nat × Bytes)) (hn : rs.length < 2 ^ 32) (hrs : StringsOk rs) :
    (∀ string_id, string_id < 2 ^ 16 →
      XdbfWrapper.GetStringTableEntry.inBlock
          (pre ++ (encXstrHeader magic version rs.length ++ encStrings rs) ++ suf)
          pre.length string_id =
        some (lookupString (rs.take (rs.length % 2 ^ 16)) string_id)) ∧
    (rs.length < 2 ^ 16 → ∀ (k : Nat) (r : Nat × Bytes), rs[k]? = some r →
      (∀ j r', j < k → rs[j]? = some r' → r'.1 ≠ r.1) →
      XdbfWrapper.GetStringTableEntry.inBlock
          (pre ++ (encXstrHeader magic version rs.length ++ encStrings rs) ++ suf)
          pre.length r.1 = some r.2) := by
  refine ⟨fun string_id hid => inBlock_narrowed pre suf magic version rs string_id hn hrs hid,
    ?_⟩
  intro hlt k r hk hfirst
  have hr : r ∈ rs := List.getElem?_mem hk
  rw [inBlock_narrowed pre suf magic version rs r.1 hn hrs (hrs r hr).1,
    Nat.mod_eq_of_lt hlt, List.take_length, lookupString_first rs k r hk hfirst]

/-- C18, amended, on the table `{(1,"Hello"),(2,"World")}`: position 1 is reached. -/
theorem string_records_reachable_witness :
    XdbfWrapper.GetStringTableEntry.inBlock
        ([] ++ (encXstrHeader kXdbfMagicXstr 1 exStrings.length ++ encStrings exStrings) ++ [])
        ([] : Bytes).length (2, [87, 111, 114, 108, 100]).1 =
      some (2, [87, 111, 114, 108, 100]).2 :=
  (string_records_reachable [] [] kXdbfMagicXstr 1 exStrings (by decide) (by decide)).2
    (by decide) 1 (2, [87, 111, 114, 108, 100]) (by decide)
    (by
      intro j r' hj hr'
      interval_cases j
      have h0 : exStrings[0]? = some (1, [72, 101, 108, 108, 111]) := by decide
      rw [h0] at hr'
      cases hr'
      decide)

/-! ## Destination list -/

theorem fill_append (w : XdbfWrapper) (xstr_head xstr_ptr : Nat) :
    ∀ (n e : Nat) (es es' : List XbdfAchievement),
      XdbfWrapper.GetAchievements.fill w xstr_head xstr_ptr n e es = some es' →
      ∃ added, es' = es ++ added ∧ added.length = n := by
  intro n
  induction n with
  | zero =>
    intro e es es' h
    simp only [XdbfWrapper.GetAchievements.fill, Option.some.injEq] at h
    exact ⟨[], by simp [h], rfl⟩
  | succ n ih =>
    intro e es es' h
    simp only [XdbfWrapper.GetAchievements.fill, Option.bind_eq_bind, Option.bind_eq_some] at h
    obtain ⟨a, _, b, _, c, _, d, _, l, _, sc, _, t1, _, l2, _, t2, _, l3, _, t3, _, h⟩ := h
    obtain ⟨added, hadd, hlen⟩ := ih _ _ _ h
    refine ⟨{ id := a, image_id := b, gamerscore := c, flags := d, label := t1,
              description := t2, unachieved_desc := t3 } :: added, ?_, by simp [hlen]⟩
    rw [hadd]
    simp [List.append_assoc]

/-- C19. `GetAchievements` only appends: whenever a call with a destination list of
`m` records returns the count `r`, the list afterwards is the old list followed by
exactly `r` new records; it is the old list itself when the call returns 0, which it
does when the achievements block is absent, when the locale's string table is absent,
and when the declared count is 0.  Without a destination list there is none
afterwards. -/
theorem GetAchievements_appends (w : XdbfWrapper) (locale : Nat) (es : List XbdfAchievement) :
    (∀ r out, w.GetAchievements locale (some es) = some (r, out) →
      ∃ added, out = some (es ++ added) ∧ added.length = r ∧
        (es ++ added).take es.length = es ∧ (es ++ added).length = es.length + r) ∧
    (∀ out, w.GetAchievements locale (some es) = some (0, out) → out = some es) ∧
    (w.GetEntry .kMetadata kXdbfIdXach = some XdbfBlock.empty →
      w.GetAchievements locale (some es) = some (0, some es)) ∧
    (∀ xach, w.GetEntry .kMetadata kXdbfIdXach = some xach →
      w.GetEntry .kStringTable (locale % 2 ^ 32) = some XdbfBlock.empty →
      w.GetAchievements locale (some es) = some (0, some es)) ∧
    (∀ a sa s ss, w.GetEntry .kMetadata kXdbfIdXach = some { buffer := some a, size := sa } →
      w.GetEntry .kStringTable (locale % 2 ^ 32) = some { buffer := some s, size := ss } →
      readU32 w.mem (a + 8) = some 0 →
      w.GetAchievements locale (some es) = some (0, some es)) ∧
    (∀ r out, w.GetAchievements locale none = some (r, out) → out = none) := by
  have key : ∀ (entries : Option (List XbdfAchievement)) r out,
      w.GetAchievements locale entries = some (r, out) →
      (entries = none → out = none) ∧
      (∀ l, entries = some l → ∃ added, out = some (l ++ added) ∧ added.length = r) := by
    intro entries r out h
    unfold XdbfWrapper.GetAchievements at h
    simp only [Option.bind_eq_bind, Option.bind_eq_some] at h
    obtain ⟨xb, _, h⟩ := h
    cases hxb : xb.buffer with
    | none =>
      rw [hxb] at h
      simp only [Option.some.injEq, Prod.mk.injEq] at h
      obtain ⟨rfl, rfl⟩ := h
      exact ⟨fun h => h, fun l hl => ⟨[], by simp [hl], rfl⟩⟩
    | some a =>
      rw [hxb] at h
      simp only [Option.bind_eq_bind, Option.bind_eq_some] at h
      obtain ⟨lb, _, h⟩ := h
      cases hlb : lb.buffer with
      | none =>
        rw [hlb] at h
        simp only [Option.some.injEq, Prod.mk.injEq] at h
        obtain ⟨rfl, rfl⟩ := h
        exact ⟨fun h => h, fun l hl => ⟨[], by simp [hl], rfl⟩⟩
      | some s =>
        rw [hlb] at h
        simp only [Option.bind_eq_bind, Option.bind_eq_some] at h
        obtain ⟨cnt, _, h⟩ := h
        cases entries with
        | none =>
          simp only [Option.some.injEq, Prod.mk.injEq] at h
          exact ⟨fun _ => h.2.symm, fun l hl => by cases hl⟩
        | some l0 =>
          simp only [Option.bind_eq_bind, Option.bind_eq_some, Option.some.injEq,
            Prod.mk.injEq] at h
          obtain ⟨es', hfill, rfl, rfl⟩ := h
          obtain ⟨added, hadd, hlen⟩ := fill_append w _ _ _ _ _ _ hfill
          refine ⟨fun h => Option.noConfusion h, fun l hl => ?_⟩
          cases hl
          exact ⟨added, by rw [hadd], hlen⟩
  refine ⟨?_, ?_, ?_, ?_, ?_, ?_⟩
  · intro r out h
    obtain ⟨added, hout, hlen⟩ := (key (some es) r out h).2 es rfl
    exact ⟨added, hout, hlen, by simp, by simp [hlen]⟩
  · intro out h
    obtain ⟨added, hout, hlen⟩ := (key (some es) 0 out h).2 es rfl
    have : added = [] := List.length_eq_zero.1 hlen
    rw [hout, this, List.append_nil]
  · intro h
    unfold XdbfWrapper.GetAchievements
    rw [h]
    rfl
  · intro xach hx hl
    unfold XdbfWrapper.GetAchievements
    rw [hx]
    simp only [Option.bind_eq_bind, Option.some_bind]
    rw [hl]
    cases xach.buffer <;> rfl
  · intro a sa s ss hx hl hcnt
    rw [GetAchievements_of_blocks hx hl hcnt (some es)]
    simp [XdbfWrapper.GetAchievements.fill]
  · intro r out h
    exact (key none r out h).1 rfl

/-- C19 on `exAchievements` with a destination list already holding one record, and on
`exDirectory`, which has no achievements block. -/
theorem GetAchievements_appends_witness :
    (∃ added, some [exEarlier, exDecoded] = some ([exEarlier] ++ added) ∧ added.length = 1 ∧
      ([exEarlier] ++ added).take [exEarlier].length = [exEarlier] ∧
      ([exEarlier] ++ added).length = [exEarlier].length + 1) ∧
    exDirectoryWrapper.GetAchievements 1 (some [exEarlier]) = some (0, some [exEarlier]) :=
  ⟨(GetAchievements_appends exAchievementsWrapper 1 [exEarlier]).1 1
      (some [exEarlier, exDecoded]) (by decide),
   (GetAchievements_appends exDirectoryWrapper 1 [exEarlier]).2.2.1 (by decide)⟩

end xe.kernel.util
